import Mathlib

/-!
Shallow embedding of the geometry pipeline of the `Digitalizacion_Planos`
repository (`BackEnd/Planos/Services/extractor.py`,
`BackEnd/Lotes/serializers.py`) together with theorems settling the
specification claims about it.

Conventions of the embedding:
* Python floats are idealised as real numbers (`ℝ`); integer pixel
  coordinates are embedded as `ℤ`.  A Python point `[x, y]` becomes a pair.
* Functions that can raise or diverge return `Option`/`Except` values.
* Sequential early-`return False` chains become conjunctions of the negated
  exit conditions; imperative loops become folds over the iterated range,
  carrying the mutated variables as explicit state.
-/

namespace Planos

/-- Euclidean norm of a 2-vector, as computed by `np.linalg.norm`. -/
noncomputable def norm2 (v : ℝ × ℝ) : ℝ :=
  Real.sqrt (v.1 ^ 2 + v.2 ^ 2)

/-- Dot product of two 2-vectors, as computed by `np.dot`. -/
noncomputable def vdot (v w : ℝ × ℝ) : ℝ :=
  v.1 * w.1 + v.2 * w.2

/-- `distance_point_to_line` (`extractor.py` lines 10–27): perpendicular
distance from `point` to the segment from `line_start` to `line_end`; the
projection parameter is clamped so off-segment points measure distance to the
nearest endpoint. -/
noncomputable def distance_point_to_line (point line_start line_end : ℝ × ℝ) : ℝ :=
  if line_start = line_end then norm2 (point - line_start)
  else
    let line_vec := line_end - line_start
    let point_vec := point - line_start
    let line_length := norm2 line_vec
    let line_unit_vec := (line_vec.1 / line_length, line_vec.2 / line_length)
    let projection_length := vdot point_vec line_unit_vec
    if projection_length < 0 then norm2 (point - line_start)
    else if projection_length > line_length then norm2 (point - line_end)
    else
      let projection := line_start +
        (projection_length * line_unit_vec.1, projection_length * line_unit_vec.2)
      norm2 (point - projection)

/-- One step of the farthest-point scan of `ramer_douglas_peucker`
(`for i in range(1, end): d = ...; if d > dmax: index = i; dmax = d`),
carrying the state `(index, dmax)`. -/
noncomputable def rdp_scan (points : List (ℝ × ℝ)) (endIdx : ℕ) (acc : ℕ × ℝ) (i : ℕ) :
    ℕ × ℝ :=
  let d := distance_point_to_line (points.getD i (0, 0)) (points.getD 0 (0, 0))
    (points.getD endIdx (0, 0))
  if acc.2 < d then (i, d) else acc

/-- `ramer_douglas_peucker` (`extractor.py` lines 29–51), with explicit
recursion fuel.  The Python recursion diverges (RecursionError) exactly when
the split branch is taken with farthest index `0` (possible only for a
negative `epsilon`), because `points[index:]` is then the whole list again;
the embedding returns `none` in that case.  Every terminating run recurses
only on strictly shorter slices, so a fuel of `points.length + 1` reproduces
the Python result. -/
noncomputable def rdp_fuel : ℕ → List (ℝ × ℝ) → ℝ → Option (List (ℝ × ℝ))
  | 0, _, _ => none
  | n + 1, points, epsilon =>
    if points.length ≤ 2 then some points
    else
      let endIdx := points.length - 1
      let scan := (List.range' 1 (endIdx - 1)).foldl (rdp_scan points endIdx) (0, 0)
      if epsilon < scan.2 then
        match rdp_fuel n (points.take (scan.1 + 1)) epsilon,
              rdp_fuel n (points.drop scan.1) epsilon with
        | some results1, some results2 => some (results1.dropLast ++ results2)
        | _, _ => none
      else some [points.getD 0 (0, 0), points.getD endIdx (0, 0)]

/-- `ramer_douglas_peucker` as called by the pipeline: the fuel
`points.length + 1` is an upper bound on the recursion depth of every
terminating execution. -/
noncomputable def ramer_douglas_peucker (points : List (ℝ × ℝ)) (epsilon : ℝ) :
    Option (List (ℝ × ℝ)) :=
  rdp_fuel (points.length + 1) points epsilon

/-- The Shoelace accumulation loop of `LoteSerializer.get_area_calculada`
(`Lotes/serializers.py` lines 28–34):
`Σ_i (x_i·y_{(i+1) mod n} − x_{(i+1) mod n}·y_i)` accumulated over
`i ∈ range n`. -/
def shoelace_sum (vertices : List (ℤ × ℤ)) : ℤ :=
  (List.range vertices.length).foldl
    (fun area i =>
      let p := vertices.getD i (0, 0)
      let q := vertices.getD ((i + 1) % vertices.length) (0, 0)
      area + p.1 * q.2 - q.1 * p.2) 0

/-- `LoteSerializer.get_area_calculada` (`Lotes/serializers.py` lines 21–36):
`None` for fewer than 3 vertices (the `not obj.vertices` guard is subsumed by
the length test), otherwise `abs(shoelace)/2`. -/
def get_area_calculada (vertices : List (ℤ × ℤ)) : Option ℚ :=
  if vertices.length < 3 then none
  else some (|(shoelace_sum vertices : ℚ)| / 2)

/-- Modelled from the spec: `cv2.contourArea` is an external OpenCV routine;
§6 of the spec records the area computation as the absolute Shoelace value
`|Σ(x_i·y_{i+1} − x_{i+1}·y_i)| / 2` over the cyclic vertex sequence, which
is OpenCV's documented Green-formula semantics for `contourArea`. -/
def contourArea (vertices : List (ℤ × ℤ)) : ℚ :=
  |(shoelace_sum vertices : ℚ)| / 2

/-- `calculate_polygon_angles` (`extractor.py` lines 353–379): all internal
angles of a polygon in degrees, one per vertex, via the consecutive-triple
dot-product formula with the cosine clamped to `[-1, 1]`
(`np.clip(c, -1.0, 1.0) = max (-1) (min 1 c)` for the scalar case) and
`math.degrees(r) = r·180/π`.  Python's `polygon[i-1]` at `i = 0` is the last
vertex, i.e. index `(i + n - 1) % n`.  (Lean's division-by-zero convention
`x/0 = 0` stands in for the NaN that numpy would produce on a zero-length
edge vector; no claim depends on that degenerate case.) -/
noncomputable def calculate_polygon_angles (polygon : List (ℤ × ℤ)) : List ℝ :=
  if polygon.length < 3 then []
  else
    (List.range polygon.length).map (fun i =>
      let n := polygon.length
      let p1 := polygon.getD ((i + (n - 1)) % n) (0, 0)
      let p2 := polygon.getD i (0, 0)
      let p3 := polygon.getD ((i + 1) % n) (0, 0)
      let v1 : ℝ × ℝ := (((p1.1 - p2.1 : ℤ) : ℝ), ((p1.2 - p2.2 : ℤ) : ℝ))
      let v2 : ℝ × ℝ := (((p3.1 - p2.1 : ℤ) : ℝ), ((p3.2 - p2.2 : ℤ) : ℝ))
      let cos_angle := vdot v1 v2 / (norm2 v1 * norm2 v2)
      let clipped := max (-1) (min 1 cos_angle)
      Real.arccos clipped * 180 / Real.pi)

/-- The two configuration values read by `is_valid_sublot` via `cfg.get`
(with defaults 500 and 40.0 applied by the caller of the embedding). -/
structure SublotCfg where
  min_sublot_area : ℝ
  min_angle : ℝ

/-- `is_valid_sublot` (`extractor.py` lines 381–400).  The imperative
early-`return False` chain is embedded as the conjunction of the negated exit
conditions, in source order: vertex count not outside `[3, 7]`, area not
below `min_sublot_area`, no angle below `min_angle`. -/
def is_valid_sublot (polygon : List (ℤ × ℤ)) (cfg : SublotCfg) : Prop :=
  ¬(polygon.length < 3 ∨ 7 < polygon.length) ∧
  ¬((contourArea polygon : ℝ) < cfg.min_sublot_area) ∧
  ¬(∃ angle ∈ calculate_polygon_angles polygon, angle < cfg.min_angle)

/-- C1: `is_valid_sublot` holds if and only if the vertex count is in
`[3, 7]`, the enclosed area is at least `min_sublot_area`, and every internal
angle computed by `calculate_polygon_angles` (the consecutive-triple
dot-product formula with clamped cosine) is at least `min_angle` degrees; in
particular polygons with ≤ 2 or ≥ 8 vertices are rejected, and a polygon with
any angle below `min_angle` is rejected regardless of its area. -/
theorem is_valid_sublot_iff (polygon : List (ℤ × ℤ)) (cfg : SublotCfg) :
    is_valid_sublot polygon cfg ↔
      3 ≤ polygon.length ∧ polygon.length ≤ 7 ∧
        cfg.min_sublot_area ≤ (contourArea polygon : ℝ) ∧
        ∀ angle ∈ calculate_polygon_angles polygon, cfg.min_angle ≤ angle := by
  unfold is_valid_sublot
  push_neg
  tauto

/-! ### Shoelace invariance (claim C7) -/

/-- The summand of the Shoelace loop, as a function of the pair
`(vertices[i], vertices[(i+1) % n])`. -/
def cross2 (pq : (ℤ × ℤ) × (ℤ × ℤ)) : ℤ :=
  pq.1.1 * pq.2.2 - pq.2.1 * pq.1.2

theorem foldl_add_sub (f g : ℕ → ℤ) :
    ∀ (l : List ℕ) (a : ℤ),
      l.foldl (fun acc i => acc + f i - g i) a = a + (l.map fun i => f i - g i).sum := by
  intro l
  induction l with
  | nil => simp
  | cons x xs ih => intro a; simp [ih]; ring

theorem zip_drop {α β : Type} :
    ∀ (n : ℕ) (a : List α) (b : List β),
      (a.zip b).drop n = (a.drop n).zip (b.drop n) := by
  intro n
  induction n with
  | zero => simp
  | succ m ih =>
    intro a b
    cases a with
    | nil => simp
    | cons x xs =>
      cases b with
      | nil => simp
      | cons y ys => simpa using ih xs ys

theorem zip_take {α β : Type} :
    ∀ (n : ℕ) (a : List α) (b : List β),
      (a.zip b).take n = (a.take n).zip (b.take n) := by
  intro n
  induction n with
  | zero => simp
  | succ m ih =>
    intro a b
    cases a with
    | nil => simp
    | cons x xs =>
      cases b with
      | nil => simp
      | cons y ys => simpa using ih xs ys

theorem zip_rotate {α β : Type} (a : List α) (b : List β)
    (h : a.length = b.length) (k : ℕ) :
    (a.rotate k).zip (b.rotate k) = (a.zip b).rotate k := by
  rcases Nat.eq_zero_or_pos a.length with h0 | hpos
  · have ha : a = [] := List.length_eq_zero.mp h0
    have hb : b = [] := List.length_eq_zero.mp (h ▸ h0)
    simp [ha, hb]
  · have hm : k % a.length ≤ a.length := le_of_lt (Nat.mod_lt _ hpos)
    have hmb : k % b.length ≤ b.length := by rw [← h]; exact hm
    have hza : (a.zip b).length = a.length := by
      rw [List.length_zip, ← h, min_self]
    rw [← List.rotate_mod a k, ← List.rotate_mod b k, ← List.rotate_mod (a.zip b) k]
    rw [List.rotate_eq_drop_append_take hm, List.rotate_eq_drop_append_take hmb,
      List.rotate_eq_drop_append_take (by rw [hza]; exact hm)]
    rw [← h]
    rw [List.zip_append (by simp [h])]
    rw [zip_drop, zip_take, hza]

theorem zip_reverse {α β : Type} :
    ∀ (a : List α) (b : List β), a.length = b.length →
      (a.reverse).zip (b.reverse) = (a.zip b).reverse := by
  intro a
  induction a with
  | nil => intro b h; simp [(List.length_eq_zero.mp h.symm : b = [])]
  | cons x xs ih =>
    intro b h
    cases b with
    | nil => simp at h
    | cons y ys =>
      have hl : xs.length = ys.length := by simpa using h
      simp only [List.reverse_cons, List.zip_cons_cons]
      rw [List.zip_append (by simp [hl]), ih ys hl]
      simp

/-- The Shoelace loop as a sum over the cyclically shifted zip. -/
theorem shoelace_sum_eq_zip (vs : List (ℤ × ℤ)) :
    shoelace_sum vs = ((vs.zip (vs.rotate 1)).map cross2).sum := by
  unfold shoelace_sum
  rw [foldl_add_sub (fun i => (vs.getD i (0, 0)).1 * (vs.getD ((i + 1) % vs.length) (0, 0)).2)
    (fun i => (vs.getD ((i + 1) % vs.length) (0, 0)).1 * (vs.getD i (0, 0)).2)]
  rw [zero_add]
  congr 1
  apply List.ext_get
  · simp [List.length_zip]
  · intro n h1 h2
    have hn : n < vs.length := by simpa using h1
    have hpos : 0 < vs.length := lt_of_le_of_lt (Nat.zero_le n) hn
    have hrot : n < (vs.rotate 1).length := by simpa using hn
    have hmod : (n + 1) % vs.length < vs.length := Nat.mod_lt _ hpos
    have hr : (vs.rotate 1).get ⟨n, hrot⟩ = vs.get ⟨(n + 1) % vs.length, hmod⟩ := by
      have := List.get_rotate vs 1 ⟨n, hrot⟩
      simpa using this
    simp only [List.get_eq_getElem, List.getElem_map, List.getElem_range,
      List.getElem_zip, cross2]
    simp only [List.get_eq_getElem] at hr
    rw [hr, List.getD_eq_getElem _ _ hn, List.getD_eq_getElem _ _ hmod]

/-- Rotating the vertex list leaves the Shoelace loop value unchanged. -/
theorem shoelace_sum_rotate (vs : List (ℤ × ℤ)) (k : ℕ) :
    shoelace_sum (vs.rotate k) = shoelace_sum vs := by
  rw [shoelace_sum_eq_zip, shoelace_sum_eq_zip]
  have hcomm : (vs.rotate k).rotate 1 = (vs.rotate 1).rotate k := by
    rw [List.rotate_rotate, List.rotate_rotate, Nat.add_comm]
  rw [hcomm, zip_rotate _ _ (by simp) k, List.map_rotate]
  exact (List.rotate_perm _ _).sum_eq

/-- Reversing the vertex list negates the Shoelace loop value. -/
theorem shoelace_sum_reverse (vs : List (ℤ × ℤ)) :
    shoelace_sum vs.reverse = - shoelace_sum vs := by
  match vs with
  | [] => simp [shoelace_sum]
  | [p] => simp [shoelace_sum, List.range_succ]
  | a :: b :: t =>
    set l := a :: b :: t with hl
    have hlen : 2 ≤ l.length := by simp [hl]
    rw [shoelace_sum_eq_zip, shoelace_sum_eq_zip]
    have h1 : l.reverse.rotate 1 = (l.rotate (l.length - 1)).reverse := by
      rw [List.rotate_reverse, Nat.mod_eq_of_lt (by omega)]
    rw [h1, zip_reverse _ _ (by simp), List.map_reverse, List.sum_reverse]
    have h2 : ((l.zip (l.rotate (l.length - 1))).map cross2).sum
        = (((l.zip (l.rotate (l.length - 1))).rotate 1).map cross2).sum := by
      rw [List.map_rotate]
      exact ((List.rotate_perm _ _).sum_eq).symm
    rw [h2, ← zip_rotate _ _ (by simp) 1]
    have h4 : (l.rotate (l.length - 1)).rotate 1 = l := by
      rw [List.rotate_rotate, show l.length - 1 + 1 = l.length from by omega,
        List.rotate_length]
    rw [h4, ← List.zip_swap, List.map_map]
    have h5 : (cross2 ∘ Prod.swap) = fun pq : (ℤ × ℤ) × (ℤ × ℤ) => -cross2 pq := by
      funext pq
      simp [cross2, Prod.swap]
    rw [h5, show ((l.zip (l.rotate 1)).map fun pq => -cross2 pq)
      = ((l.zip (l.rotate 1)).map cross2).map (fun x => -x) from by rw [List.map_map]; rfl]
    rw [← List.sum_neg]

/-- C7: the area computed by `get_area_calculada` is invariant under every
cyclic rotation of the vertex list and unchanged by reversal, for every
polygon with at least 3 vertices. -/
theorem get_area_calculada_rotate_reverse (P : List (ℤ × ℤ)) (k : ℕ)
    (h : 3 ≤ P.length) :
    get_area_calculada (P.rotate k) = get_area_calculada P ∧
      get_area_calculada P.reverse = get_area_calculada P := by
  constructor
  · unfold get_area_calculada
    rw [List.length_rotate, shoelace_sum_rotate]
  · unfold get_area_calculada
    rw [List.length_reverse, shoelace_sum_reverse]
    push_cast
    rw [abs_neg]

/-- Witness for C7 at the triangle `(0,0), (2,0), (0,2)` rotated by one. -/
theorem get_area_calculada_rotate_reverse_witness :
    (get_area_calculada ([((0:ℤ), (0:ℤ)), (2, 0), (0, 2)].rotate 1)
        = get_area_calculada [((0:ℤ), (0:ℤ)), (2, 0), (0, 2)] ∧
      get_area_calculada ([((0:ℤ), (0:ℤ)), (2, 0), (0, 2)].reverse)
        = get_area_calculada [((0:ℤ), (0:ℤ)), (2, 0), (0, 2)]) ∧
      get_area_calculada [((0:ℤ), (0:ℤ)), (2, 0), (0, 2)] = some 2 :=
  ⟨get_area_calculada_rotate_reverse _ 1 (by decide),
    by norm_num [get_area_calculada, shoelace_sum, List.range_succ]⟩

/-! ### Geometric facts about `distance_point_to_line` (claims C2, C3, C10) -/

/-- Orientation (twice the signed triangle area) of the point triple
`(a, b, c)`; it vanishes exactly when the triple is collinear. -/
def cross3 (a b c : ℝ × ℝ) : ℝ :=
  (b.1 - a.1) * (c.2 - a.2) - (c.1 - a.1) * (b.2 - a.2)

theorem norm2_nonneg (v : ℝ × ℝ) : 0 ≤ norm2 v :=
  Real.sqrt_nonneg _

theorem norm2_eq_zero_iff (v : ℝ × ℝ) : norm2 v = 0 ↔ v = 0 := by
  unfold norm2
  rw [Real.sqrt_eq_zero']
  constructor
  · intro h
    have h1 : v.1 = 0 := by nlinarith [sq_nonneg v.1, sq_nonneg v.2]
    have h2 : v.2 = 0 := by nlinarith [sq_nonneg v.1, sq_nonneg v.2]
    exact Prod.ext h1 h2
  · intro h
    rw [h]
    norm_num

theorem norm2_pos (v : ℝ × ℝ) (h : v ≠ 0) : 0 < norm2 v := by
  rcases lt_or_eq_of_le (norm2_nonneg v) with hlt | heq
  · exact hlt
  · exact absurd ((norm2_eq_zero_iff v).mp heq.symm) h

theorem distance_point_to_line_nonneg (p s e : ℝ × ℝ) :
    0 ≤ distance_point_to_line p s e := by
  unfold distance_point_to_line
  dsimp only
  split_ifs <;> exact norm2_nonneg _

/-- For a point distinct from both segment endpoints and not collinear with
them, the clamped perpendicular distance is strictly positive. -/
theorem distance_point_to_line_pos (p s e : ℝ × ℝ) (hps : p ≠ s) (hpe : p ≠ e)
    (hc : cross3 s p e ≠ 0) : 0 < distance_point_to_line p s e := by
  unfold distance_point_to_line
  dsimp only
  split_ifs with h1 h2 h3
  · exact norm2_pos _ (sub_ne_zero.mpr hps)
  · exact norm2_pos _ (sub_ne_zero.mpr hps)
  · exact norm2_pos _ (sub_ne_zero.mpr hpe)
  · apply norm2_pos
    intro heq
    apply hc
    have hfst : p.1 - (s.1 + vdot (p - s) ((e - s).1 / norm2 (e - s), (e - s).2 / norm2 (e - s)) *
        ((e - s).1 / norm2 (e - s))) = 0 := by
      have := congrArg Prod.fst heq
      simpa using this
    have hsnd : p.2 - (s.2 + vdot (p - s) ((e - s).1 / norm2 (e - s), (e - s).2 / norm2 (e - s)) *
        ((e - s).2 / norm2 (e - s))) = 0 := by
      have := congrArg Prod.snd heq
      simpa using this
    set t := vdot (p - s) ((e - s).1 / norm2 (e - s), (e - s).2 / norm2 (e - s)) with ht
    have h1fst : (e - s).1 = e.1 - s.1 := rfl
    have h1snd : (e - s).2 = e.2 - s.2 := rfl
    rw [h1fst] at hfst
    rw [h1snd] at hsnd
    have hp1 : p.1 = s.1 + t * ((e.1 - s.1) / norm2 (e - s)) := by linarith
    have hp2 : p.2 = s.2 + t * ((e.2 - s.2) / norm2 (e - s)) := by linarith
    unfold cross3
    rw [hp1, hp2]
    ring

/-- Perpendicular distance from an on-segment point of a horizontal segment:
it is zero, witnessing that collinear interior points are invisible to the
farthest-point scan. -/
theorem distance_point_to_line_horizontal (px sx ex : ℝ) (h1 : sx ≤ px)
    (h2 : px ≤ ex) (h3 : sx < ex) :
    distance_point_to_line (px, 0) (sx, 0) (ex, 0) = 0 := by
  have hne : ((sx, (0:ℝ)) : ℝ × ℝ) ≠ (ex, 0) := by
    intro heq
    rw [Prod.mk.injEq] at heq
    exact absurd heq.1 (ne_of_lt h3)
  have hsub1 : ((ex, (0:ℝ)) : ℝ × ℝ) - (sx, 0) = (ex - sx, 0) := by
    rw [Prod.mk_sub_mk, sub_zero]
  have hsub2 : ((px, (0:ℝ)) : ℝ × ℝ) - (sx, 0) = (px - sx, 0) := by
    rw [Prod.mk_sub_mk, sub_zero]
  have hL : norm2 (ex - sx, 0) = ex - sx := by
    unfold norm2
    norm_num
    rw [Real.sqrt_sq (by linarith)]
  unfold distance_point_to_line
  dsimp only
  rw [if_neg hne]
  simp only [hsub1, hsub2, hL]
  have hdiv : (ex - sx) / (ex - sx) = 1 := div_self (by linarith)
  have hdiv0 : (0:ℝ) / (ex - sx) = 0 := zero_div _
  rw [hdiv, hdiv0]
  have hv : vdot (px - sx, 0) (1, 0) = px - sx := by
    unfold vdot
    ring
  rw [hv]
  rw [if_neg (not_lt.mpr (by linarith)), if_neg (not_lt.mpr (by linarith))]
  have hproj : ((sx, (0:ℝ)) : ℝ × ℝ) + ((px - sx) * 1, (px - sx) * 0) = (px, 0) := by
    rw [Prod.mk_add_mk]
    congr 1 <;> ring
  rw [hproj]
  have hself : ((px, (0:ℝ)) : ℝ × ℝ) - (px, 0) = (0, 0) := by
    rw [Prod.mk_sub_mk]
    simp
  rw [hself]
  unfold norm2
  norm_num

/-! ### The farthest-point scan as a fold -/

/-- Distance of `points[i]` to the chord through `points[0]` and
`points[endIdx]` — the quantity `d` computed inside the scan loop. -/
noncomputable def apexDist (points : List (ℝ × ℝ)) (endIdx i : ℕ) : ℝ :=
  distance_point_to_line (points.getD i (0, 0)) (points.getD 0 (0, 0))
    (points.getD endIdx (0, 0))

theorem rdp_scan_eq (points : List (ℝ × ℝ)) (endIdx : ℕ) (acc : ℕ × ℝ) (i : ℕ) :
    rdp_scan points endIdx acc i =
      if acc.2 < apexDist points endIdx i then (i, apexDist points endIdx i) else acc :=
  rfl

theorem rdp_scan_snd_mono (points : List (ℝ × ℝ)) (endIdx : ℕ) :
    ∀ (l : List ℕ) (acc : ℕ × ℝ), acc.2 ≤ (l.foldl (rdp_scan points endIdx) acc).2 := by
  intro l
  induction l with
  | nil => intro acc; exact le_refl _
  | cons x xs ih =>
    intro acc
    rw [List.foldl_cons]
    refine le_trans ?_ (ih (rdp_scan points endIdx acc x))
    rw [rdp_scan_eq]
    split_ifs with h
    · exact le_of_lt h
    · exact le_refl _

theorem rdp_scan_le_foldl (points : List (ℝ × ℝ)) (endIdx : ℕ) :
    ∀ (l : List ℕ) (acc : ℕ × ℝ), ∀ i ∈ l,
      apexDist points endIdx i ≤ (l.foldl (rdp_scan points endIdx) acc).2 := by
  intro l
  induction l with
  | nil => intro acc i hi; simp at hi
  | cons x xs ih =>
    intro acc i hi
    rw [List.foldl_cons]
    rcases List.mem_cons.mp hi with rfl | hmem
    · refine le_trans ?_ (rdp_scan_snd_mono points endIdx xs (rdp_scan points endIdx acc i))
      rw [rdp_scan_eq]
      split_ifs with h
      · exact le_refl _
      · exact le_of_not_lt h
    · exact ih _ i hmem

theorem rdp_scan_foldl_cases (points : List (ℝ × ℝ)) (endIdx : ℕ) :
    ∀ (l : List ℕ) (acc : ℕ × ℝ),
      l.foldl (rdp_scan points endIdx) acc = acc ∨
        ∃ i ∈ l, l.foldl (rdp_scan points endIdx) acc = (i, apexDist points endIdx i) := by
  intro l
  induction l with
  | nil => intro acc; exact Or.inl rfl
  | cons x xs ih =>
    intro acc
    rw [List.foldl_cons, rdp_scan_eq]
    split_ifs with h
    · rcases ih (x, apexDist points endIdx x) with heq | ⟨i, hi, heq⟩
      · exact Or.inr ⟨x, List.mem_cons_self x xs, heq⟩
      · exact Or.inr ⟨i, List.mem_cons_of_mem _ hi, heq⟩
    · rcases ih acc with heq | ⟨i, hi, heq⟩
      · exact Or.inl heq
      · exact Or.inr ⟨i, List.mem_cons_of_mem _ hi, heq⟩

/-! ### List utilities for the recursion analysis -/

theorem head?_dropLast {α : Type} (l : List α) (h : 2 ≤ l.length) :
    l.dropLast.head? = l.head? := by
  cases l with
  | nil => simp at h
  | cons x t =>
    cases t with
    | nil => simp at h
    | cons y t2 => rfl

theorem getLast?_drop {α : Type} (l : List α) (i : ℕ) (h : i < l.length) :
    (l.drop i).getLast? = l.getLast? := by
  rw [List.getLast?_eq_get?, List.getLast?_eq_get?, List.length_drop, List.get?_drop]
  congr 1
  omega

theorem head?_eq_getD {α : Type} (l : List α) (h : l ≠ []) (d : α) :
    l.head? = some (l.getD 0 d) := by
  cases l with
  | nil => exact absurd rfl h
  | cons x t => rfl

theorem getLast?_eq_getD {α : Type} (l : List α) (h : l ≠ []) (d : α) :
    l.getLast? = some (l.getD (l.length - 1) d) := by
  have hl : l.length - 1 < l.length := by
    cases l with
    | nil => exact absurd rfl h
    | cons x t => simp
  rw [List.getLast?_eq_get?, List.get?_eq_get hl]
  rw [List.getD_eq_getElem _ _ hl]
  simp [List.get_eq_getElem]

theorem rdp_fuel_short (n : ℕ) (l : List (ℝ × ℝ)) (eps : ℝ) (out : List (ℝ × ℝ))
    (hlen : l.length ≤ 2) (h : rdp_fuel n l eps = some out) : out = l := by
  cases n with
  | zero => exact absurd h (by simp [rdp_fuel])
  | succ n =>
    rw [rdp_fuel, if_pos hlen] at h
    exact (Option.some.inj h).symm

/-- Endpoint preservation: whenever `rdp_fuel` returns a result on an input of
at least two points, the result again has at least two points and keeps the
input's first and last point — for every `epsilon`, terminating runs only. -/
theorem rdp_fuel_endpoints :
    ∀ (n : ℕ) (points out : List (ℝ × ℝ)) (eps : ℝ),
      rdp_fuel n points eps = some out → 2 ≤ points.length →
      2 ≤ out.length ∧ out.head? = points.head? ∧ out.getLast? = points.getLast? := by
  intro n
  induction n with
  | zero => intro points out eps h _; exact absurd h (by simp [rdp_fuel])
  | succ n ih =>
    intro points out eps h hlen
    by_cases hle : points.length ≤ 2
    · obtain rfl := rdp_fuel_short _ _ _ _ hle h
      exact ⟨hlen, rfl, rfl⟩
    · rw [rdp_fuel, if_neg hle] at h
      push_neg at hle
      dsimp only at h
      set endIdx := points.length - 1 with hendIdx
      set scan := (List.range' 1 (endIdx - 1)).foldl (rdp_scan points endIdx) (0, 0)
        with hscandef
      have hnonempty : points ≠ [] := by
        intro hc
        rw [hc] at hlen
        simp at hlen
      by_cases heps : eps < scan.2
      · rw [if_pos heps] at h
        rcases hA : rdp_fuel n (points.take (scan.1 + 1)) eps with _ | r1
        · rw [hA] at h
          simp at h
        rcases hB : rdp_fuel n (points.drop scan.1) eps with _ | r2
        · rw [hA, hB] at h
          simp at h
        rw [hA, hB] at h
        obtain rfl : r1.dropLast ++ r2 = out := Option.some.inj h
        rcases Nat.eq_zero_or_pos scan.1 with hzero | hpos
        · -- farthest index 0: the left slice is the single head point
          have htake : points.take (scan.1 + 1) = points.take 1 := by rw [hzero]
          have hlen1 : (points.take 1).length = 1 := by
            rw [List.length_take]
            exact min_eq_left (by omega)
          have hr1 : r1 = points.take 1 :=
            rdp_fuel_short n _ eps r1 (by rw [hlen1]; omega) (htake ▸ hA)
          have hr1drop : r1.dropLast = [] := by
            rw [hr1, List.dropLast_eq_take, hlen1]
            simp
          have hdrop : points.drop scan.1 = points := by rw [hzero, List.drop_zero]
          obtain ⟨hg1, hg2, hg3⟩ := ih _ r2 eps (hdrop ▸ hB) hlen
          rw [hr1drop, List.nil_append]
          exact ⟨hg1, hg2, hg3⟩
        · -- farthest index is a genuine interior index
          have hbound : 1 ≤ scan.1 ∧ scan.1 ≤ endIdx - 1 := by
            rcases rdp_scan_foldl_cases points endIdx (List.range' 1 (endIdx - 1)) (0, 0)
              with heq | ⟨i, hi, heq⟩
            · rw [← hscandef] at heq
              rw [heq] at hpos
              simp at hpos
            · rw [← hscandef] at heq
              rw [heq]
              rcases List.mem_range'_1.mp hi with ⟨hi1, hi2⟩
              exact ⟨hi1, by omega⟩
          have hlen_take : (points.take (scan.1 + 1)).length = scan.1 + 1 := by
            rw [List.length_take]
            exact min_eq_left (by omega)
          have h2take : 2 ≤ (points.take (scan.1 + 1)).length := by omega
          have h2drop : 2 ≤ (points.drop scan.1).length := by
            rw [List.length_drop]
            omega
          obtain ⟨hr1len, hr1head, hr1last⟩ := ih _ r1 eps hA h2take
          obtain ⟨hr2len, hr2head, hr2last⟩ := ih _ r2 eps hB h2drop
          refine ⟨?_, ?_, ?_⟩
          · rw [List.length_append, List.length_dropLast]
            omega
          · rw [List.head?_append]
            have hd : r1.dropLast.head? = points.head? := by
              rw [head?_dropLast r1 hr1len, hr1head, List.head?_take,
                if_neg (by omega)]
            rw [hd, head?_eq_getD points hnonempty (0, 0)]
            rfl
          · rw [List.getLast?_append]
            have hlast : r2.getLast? = points.getLast? := by
              rw [hr2last, getLast?_drop _ _ (by omega)]
            rw [hlast, getLast?_eq_getD points hnonempty (0, 0)]
            rfl
      · rw [if_neg heps] at h
        obtain rfl : [points.getD 0 (0, 0), points.getD endIdx (0, 0)] = out :=
          Option.some.inj h
        refine ⟨by rfl, ?_, ?_⟩
        · rw [head?_eq_getD points hnonempty (0, 0)]
          rfl
        · rw [getLast?_eq_getD points hnonempty (0, 0), hendIdx]
          rfl

/-- Totality for nonnegative tolerance: with `epsilon ≥ 0` the recursion
always terminates within fuel exceeding the input length (the farthest-point
index is then a genuine interior index, so both slices are shorter). -/
theorem rdp_fuel_isSome :
    ∀ (n : ℕ) (points : List (ℝ × ℝ)) (eps : ℝ), 0 ≤ eps → points.length < n →
      ∃ out, rdp_fuel n points eps = some out := by
  intro n
  induction n with
  | zero => intro points eps _ h; omega
  | succ n ih =>
    intro points eps heps hlt
    by_cases hle : points.length ≤ 2
    · exact ⟨points, by rw [rdp_fuel, if_pos hle]⟩
    · push_neg at hle
      rw [rdp_fuel, if_neg (by omega)]
      dsimp only
      set endIdx := points.length - 1 with hendIdx
      set scan := (List.range' 1 (endIdx - 1)).foldl (rdp_scan points endIdx) (0, 0)
        with hscandef
      by_cases heps2 : eps < scan.2
      · have hbound : 1 ≤ scan.1 ∧ scan.1 ≤ endIdx - 1 := by
          rcases rdp_scan_foldl_cases points endIdx (List.range' 1 (endIdx - 1)) (0, 0)
            with heq | ⟨i, hi, heq⟩
          · rw [← hscandef] at heq
            rw [heq] at heps2
            simp at heps2
            linarith
          · rw [← hscandef] at heq
            rw [heq]
            rcases List.mem_range'_1.mp hi with ⟨hi1, hi2⟩
            exact ⟨hi1, by omega⟩
        obtain ⟨o1, ho1⟩ := ih (points.take (scan.1 + 1)) eps heps
          (by rw [List.length_take]; have := min_le_left (scan.1 + 1) points.length; omega)
        obtain ⟨o2, ho2⟩ := ih (points.drop scan.1) eps heps
          (by rw [List.length_drop]; omega)
        rw [if_pos heps2, ho1, ho2]
        exact ⟨o1.dropLast ++ o2, rfl⟩
      · rw [if_neg heps2]
        exact ⟨_, rfl⟩

/-- Two positions of a list, in order, form a sublist. -/
theorem sublist_pair {α : Type} (l : List α) (d : α) (i j : ℕ) (hij : i < j)
    (hj : j < l.length) : List.Sublist [l.getD i d, l.getD j d] l := by
  have hi : i < l.length := lt_trans hij hj
  have hsplit := List.take_append_drop (i + 1) l
  have h1 : List.Sublist [l.getD i d] (l.take (i + 1)) := by
    rw [List.singleton_sublist, List.getD_eq_getElem _ _ hi]
    have hti : i < (l.take (i + 1)).length := by
      rw [List.length_take]
      omega
    have heq : (l.take (i + 1))[i] = l[i] := List.getElem_take l
    rw [← heq]
    exact List.getElem_mem hti
  have h2 : List.Sublist [l.getD j d] (l.drop (i + 1)) := by
    rw [List.singleton_sublist, List.getD_eq_getElem _ _ hj]
    have htj : j - (i + 1) < (l.drop (i + 1)).length := by
      rw [List.length_drop]
      omega
    have heq : (l.drop (i + 1))[j - (i + 1)] = l[j] := by
      rw [List.getElem_drop]
      congr 1
      omega
    rw [← heq]
    exact List.getElem_mem htj
  have := List.Sublist.append h1 h2
  rw [hsplit] at this
  exact this

/-- Three positions of a list, in order, form a sublist. -/
theorem sublist_triple {α : Type} (l : List α) (d : α) (i j k : ℕ) (hij : i < j)
    (hjk : j < k) (hk : k < l.length) :
    List.Sublist [l.getD i d, l.getD j d, l.getD k d] l := by
  have hi : i < l.length := by omega
  have hsplit := List.take_append_drop (i + 1) l
  have h1 : List.Sublist [l.getD i d] (l.take (i + 1)) := by
    rw [List.singleton_sublist, List.getD_eq_getElem _ _ hi]
    have hti : i < (l.take (i + 1)).length := by
      rw [List.length_take]
      omega
    have heq : (l.take (i + 1))[i] = l[i] := List.getElem_take l
    rw [← heq]
    exact List.getElem_mem hti
  have hdj : j - (i + 1) < (l.drop (i + 1)).length := by
    rw [List.length_drop]
    omega
  have hdk : k - (i + 1) < (l.drop (i + 1)).length := by
    rw [List.length_drop]
    omega
  have hjl : j < l.length := by omega
  have hgj : (l.drop (i + 1)).getD (j - (i + 1)) d = l.getD j d := by
    rw [List.getD_eq_getElem _ _ hdj, List.getD_eq_getElem _ _ hjl]
    simp only [List.getElem_drop]
    congr 1
    omega
  have hgk : (l.drop (i + 1)).getD (k - (i + 1)) d = l.getD k d := by
    rw [List.getD_eq_getElem _ _ hdk, List.getD_eq_getElem _ _ hk]
    simp only [List.getElem_drop]
    congr 1
    omega
  have h2 : List.Sublist [l.getD j d, l.getD k d] (l.drop (i + 1)) := by
    rw [← hgj, ← hgk]
    exact sublist_pair _ d _ _ (by omega) hdk
  have := List.Sublist.append h1 h2
  rw [hsplit] at this
  exact this

/-- With `epsilon = 0`, the recursion returns its input unchanged provided the
points are pairwise distinct and no three of them (in order) are collinear:
every interior point then has a strictly positive distance to the chord, so
the recursion splits all the way down to the two-point base cases and the
concatenation reassembles the original sequence. -/
theorem rdp_fuel_eps_zero :
    ∀ (n : ℕ) (points : List (ℝ × ℝ)), points.length < n →
      points.Pairwise (fun p q => p ≠ q) →
      (∀ a b c : ℝ × ℝ, List.Sublist [a, b, c] points → cross3 a b c ≠ 0) →
      rdp_fuel n points 0 = some points := by
  intro n
  induction n with
  | zero => intro points h _ _; omega
  | succ n ih =>
    intro points hlt hpw hgen
    by_cases hle : points.length ≤ 2
    · rw [rdp_fuel, if_pos hle]
    · push_neg at hle
      rw [rdp_fuel, if_neg (by omega)]
      dsimp only
      set endIdx := points.length - 1 with hendIdx
      set scan := (List.range' 1 (endIdx - 1)).foldl (rdp_scan points endIdx) (0, 0)
        with hscandef
      have hpos_d : ∀ i, 1 ≤ i → i ≤ endIdx - 1 → 0 < apexDist points endIdx i := by
        intro i hi1 hi2
        have hiend : i < endIdx := by omega
        have hendlt : endIdx < points.length := by omega
        have hsub := sublist_triple points (0, 0) 0 i endIdx (by omega) hiend hendlt
        have hpw3 := List.Pairwise.sublist hsub hpw
        rw [List.pairwise_cons, List.pairwise_cons] at hpw3
        obtain ⟨hne01, hpw2, _⟩ := hpw3
        have hne0i : points.getD 0 (0, 0) ≠ points.getD i (0, 0) :=
          hne01 _ (List.mem_cons_self _ _)
        have hneie : points.getD i (0, 0) ≠ points.getD endIdx (0, 0) :=
          hpw2 _ (List.mem_cons_self _ _)
        exact distance_point_to_line_pos _ _ _ (Ne.symm hne0i) hneie (hgen _ _ _ hsub)
      have hscan2_pos : (0:ℝ) < scan.2 := by
        have h1d : apexDist points endIdx 1 ≤ scan.2 := by
          rw [hscandef]
          apply rdp_scan_le_foldl
          rw [List.mem_range'_1]
          omega
        have := hpos_d 1 (le_refl 1) (by omega)
        linarith
      rw [if_pos hscan2_pos]
      have hbound : 1 ≤ scan.1 ∧ scan.1 ≤ endIdx - 1 := by
        rcases rdp_scan_foldl_cases points endIdx (List.range' 1 (endIdx - 1)) (0, 0)
          with heq | ⟨i, hi, heq⟩
        · rw [← hscandef] at heq
          rw [heq] at hscan2_pos
          simp at hscan2_pos
        · rw [← hscandef] at heq
          rw [heq]
          rcases List.mem_range'_1.mp hi with ⟨hi1, hi2⟩
          exact ⟨hi1, by omega⟩
      have htake_sl := List.take_sublist (scan.1 + 1) points
      have hdrop_sl := List.drop_sublist scan.1 points
      have hr1 : rdp_fuel n (points.take (scan.1 + 1)) 0 = some (points.take (scan.1 + 1)) := by
        apply ih
        · rw [List.length_take]
          have := min_le_left (scan.1 + 1) points.length
          omega
        · exact List.Pairwise.sublist htake_sl hpw
        · exact fun a b c hs => hgen a b c (hs.trans htake_sl)
      have hr2 : rdp_fuel n (points.drop scan.1) 0 = some (points.drop scan.1) := by
        apply ih
        · rw [List.length_drop]
          omega
        · exact List.Pairwise.sublist hdrop_sl hpw
        · exact fun a b c hs => hgen a b c (hs.trans hdrop_sl)
      rw [hr1, hr2]
      have hlentake : (points.take (scan.1 + 1)).length = scan.1 + 1 := by
        rw [List.length_take]
        exact min_eq_left (by omega)
      have hdl : (points.take (scan.1 + 1)).dropLast = points.take scan.1 := by
        rw [List.dropLast_eq_take, hlentake, List.take_take]
        congr 1
        omega
      simp only []
      rw [hdl]
      rw [List.take_append_drop]

/-- When every interior deviation from the first–last chord is strictly below
`epsilon`, the top-level call collapses the whole sequence to its two
endpoints. -/
theorem rdp_collapse (points : List (ℝ × ℝ)) (eps : ℝ) (hlen : 2 ≤ points.length)
    (hdev : ∀ i, 0 < i → i < points.length - 1 →
      distance_point_to_line (points.getD i (0, 0)) (points.getD 0 (0, 0))
        (points.getD (points.length - 1) (0, 0)) < eps) :
    ramer_douglas_peucker points eps =
      some [points.getD 0 (0, 0), points.getD (points.length - 1) (0, 0)] := by
  unfold ramer_douglas_peucker
  by_cases hle : points.length ≤ 2
  · have h2 : points.length = 2 := le_antisymm hle hlen
    obtain ⟨a, b, rfl⟩ := List.length_eq_two.mp h2
    rw [rdp_fuel, if_pos (by simp)]
    rfl
  · push_neg at hle
    rw [rdp_fuel, if_neg (by omega)]
    dsimp only
    set endIdx := points.length - 1 with hendIdx
    set scan := (List.range' 1 (endIdx - 1)).foldl (rdp_scan points endIdx) (0, 0)
      with hscandef
    have hnot : ¬ (eps < scan.2) := by
      rcases rdp_scan_foldl_cases points endIdx (List.range' 1 (endIdx - 1)) (0, 0)
        with heq | ⟨i, hi, heq⟩
      · rw [← hscandef] at heq
        rw [heq]
        have h01 := hdev 1 (by omega) (by omega)
        have hd1 := distance_point_to_line_nonneg (points.getD 1 (0, 0))
          (points.getD 0 (0, 0)) (points.getD (points.length - 1) (0, 0))
        push_neg
        simp only []
        linarith
      · rw [← hscandef] at heq
        rw [heq]
        dsimp only
        rcases List.mem_range'_1.mp hi with ⟨hi1, hi2⟩
        have hlt := hdev i (by omega) (by omega)
        unfold apexDist
        exact not_lt.mpr (le_of_lt hlt)
    rw [if_neg hnot]

/-- Python `int()` applied to a float: truncation toward zero. -/
noncomputable def pyint (x : ℝ) : ℤ :=
  if 0 ≤ x then ⌊x⌋ else ⌈x⌉

/-- `simplify_contours` (`extractor.py` lines 53–64): simplify each contour of
at least two points through `ramer_douglas_peucker`, convert the result back
to integer points via `int(x)`, and keep it only if it still has at least two
points.  A diverging recursive call (`none`) aborts the whole loop, mirroring
the Python exception. -/
noncomputable def simplify_contours : List (List (ℤ × ℤ)) → ℝ → Option (List (List (ℤ × ℤ)))
  | [], _ => some []
  | contour :: rest, epsilon =>
    if 2 ≤ contour.length then
      match ramer_douglas_peucker (contour.map (fun p => ((p.1 : ℝ), (p.2 : ℝ)))) epsilon with
      | none => none
      | some simplified =>
        let simplified_int := simplified.map (fun q => (pyint q.1, pyint q.2))
        match simplify_contours rest epsilon with
        | none => none
        | some tail =>
          some (if 2 ≤ simplified_int.length then simplified_int :: tail else tail)
    else simplify_contours rest epsilon

/-! ### Concrete evaluations of the simplifier -/

theorem rdp_fuel_single (n : ℕ) (a : ℝ × ℝ) (eps : ℝ) :
    rdp_fuel (n + 1) [a] eps = some [a] := by
  rw [rdp_fuel, if_pos (by simp)]

/-- Unfolding of one `rdp_fuel` step on a three-point list. -/
theorem rdp_fuel_three (n : ℕ) (eps : ℝ) (a b c : ℝ × ℝ) :
    rdp_fuel (n + 1) [a, b, c] eps =
      if eps < ((List.range' 1 1).foldl (rdp_scan [a, b, c] 2) (0, 0)).2 then
        match rdp_fuel n ([a, b, c].take
                (((List.range' 1 1).foldl (rdp_scan [a, b, c] 2) (0, 0)).1 + 1)) eps,
              rdp_fuel n ([a, b, c].drop
                ((List.range' 1 1).foldl (rdp_scan [a, b, c] 2) (0, 0)).1) eps with
        | some r1, some r2 => some (r1.dropLast ++ r2)
        | _, _ => none
      else some [a, c] := by
  rw [rdp_fuel, if_neg (by simp)]
  rfl

/-- The interior point of the collinear triple `(0,0), (1,0), (2,0)` lies on
the chord, so the farthest-point scan finds nothing: it returns `(0, 0)`. -/
theorem scan_collinear3 :
    (List.range' 1 1).foldl (rdp_scan [((0:ℝ), 0), (1, 0), (2, 0)] 2) (0, 0) =
      ((0:ℕ), (0:ℝ)) := by
  rw [List.range'_one, List.foldl_cons, List.foldl_nil, rdp_scan_eq]
  have hd : apexDist [((0:ℝ), 0), (1, 0), (2, 0)] 2 1 = 0 := by
    show distance_point_to_line ((1:ℝ), 0) ((0:ℝ), 0) ((2:ℝ), 0) = 0
    exact distance_point_to_line_horizontal 1 0 2 (by norm_num) (by norm_num) (by norm_num)
  rw [hd, if_neg (by norm_num)]

theorem rdp_neg_eps_step (n : ℕ) :
    rdp_fuel (n + 2) [((0:ℝ), 0), (1, 0), (2, 0)] (-1) =
      rdp_fuel (n + 1) [((0:ℝ), 0), (1, 0), (2, 0)] (-1) := by
  rw [show n + 2 = (n + 1) + 1 from rfl, rdp_fuel_three, scan_collinear3,
    if_pos (by norm_num)]
  norm_num
  rw [rdp_fuel_single n]
  cases hX : rdp_fuel (n + 1) [((0:ℝ), 0), (1, 0), (2, 0)] (-1) with
  | none => rfl
  | some v => simp

theorem rdp_neg_eps_base :
    rdp_fuel 1 [((0:ℝ), 0), (1, 0), (2, 0)] (-1) = none := by
  rw [show (1:ℕ) = 0 + 1 from rfl, rdp_fuel_three, scan_collinear3,
    if_pos (by norm_num)]
  norm_num
  rfl

/-! ### Claims C2, C3, C10 -/

/-- Counterexample to C2: with `epsilon = 0` the simplifier is not lossless —
on the collinear sequence `(0,0), (1,0), (2,0)` the interior point has
deviation exactly `0`, which is not `> epsilon`, so it is dropped. -/
theorem ramer_douglas_peucker_eps_zero_counterexample :
    ramer_douglas_peucker [((0:ℝ), 0), (1, 0), (2, 0)] 0 = some [((0:ℝ), 0), (2, 0)] ∧
      ([((0:ℝ), 0), (1, 0), (2, 0)] : List (ℝ × ℝ)) ≠ [((0:ℝ), 0), (2, 0)] := by
  constructor
  · show rdp_fuel 4 [((0:ℝ), 0), (1, 0), (2, 0)] 0 = some [((0:ℝ), 0), (2, 0)]
    rw [show (4:ℕ) = 3 + 1 from rfl, rdp_fuel_three, scan_collinear3,
      if_neg (by norm_num)]
  · simp

/-- C2 (amended): with `epsilon = 0` the simplifier returns the input
unchanged for every sequence of at least two pairwise-distinct points no
three of which (in order) are collinear. -/
theorem ramer_douglas_peucker_eps_zero_exact (points : List (ℝ × ℝ))
    (hlen : 2 ≤ points.length) (hpw : points.Pairwise (fun p q => p ≠ q))
    (hgen : ∀ a b c : ℝ × ℝ, List.Sublist [a, b, c] points → cross3 a b c ≠ 0) :
    ramer_douglas_peucker points 0 = some points :=
  rdp_fuel_eps_zero (points.length + 1) points (by omega) hpw hgen

/-- Witness for the amended C2 at the two-point sequence `(0,0), (1,1)`. -/
theorem ramer_douglas_peucker_eps_zero_exact_witness :
    ramer_douglas_peucker [((0:ℝ), 0), (1, 1)] 0 = some [((0:ℝ), 0), (1, 1)] :=
  ramer_douglas_peucker_eps_zero_exact _ (by norm_num)
    (by
      refine List.pairwise_cons.mpr ⟨?_, List.pairwise_singleton _ _⟩
      intro q hq
      rw [List.mem_singleton] at hq
      subst hq
      intro hcontra
      rw [Prod.mk.injEq] at hcontra
      exact absurd hcontra.1 (by norm_num))
    (by
      intro a b c hs
      have := hs.length_le
      simp at this)

/-- Counterexample to C3: on a sequence with fewer than two points the
simplifier returns the input unchanged, not a two-element first/last pair
(the claim quantified over every point sequence). -/
theorem ramer_douglas_peucker_singleton_counterexample :
    ramer_douglas_peucker [((5:ℝ), 5)] 1 = some [((5:ℝ), 5)] ∧
      ([((5:ℝ), 5)] : List (ℝ × ℝ)) ≠ [((5:ℝ), 5), (5, 5)] := by
  constructor
  · show rdp_fuel 2 [((5:ℝ), 5)] 1 = some [((5:ℝ), 5)]
    rw [show (2:ℕ) = 1 + 1 from rfl, rdp_fuel_single]
  · simp

/-- Witness for the amended C3 (`rdp_collapse`) at `(0,0), (3,0)` with
`epsilon = 1` (no interior deviations, so the bound holds vacuously). -/
theorem rdp_collapse_witness :
    ramer_douglas_peucker [((0:ℝ), 0), (3, 0)] 1 = some [((0:ℝ), 0), (3, 0)] :=
  rdp_collapse [((0:ℝ), 0), (3, 0)] 1 (by norm_num)
    (by
      intro i hi1 hi2
      exfalso
      simp at hi2
      omega)

/-- C10 (amended to nonnegative `epsilon`): the simplifier always returns a
sequence of at least two points preserving the input's first and last point,
and consequently `simplify_contours` never discards a contour whose input had
at least two points. -/
theorem ramer_douglas_peucker_preserves_endpoints :
    (∀ (points : List (ℝ × ℝ)) (epsilon : ℝ), 0 ≤ epsilon → 2 ≤ points.length →
      ∃ out, ramer_douglas_peucker points epsilon = some out ∧ 2 ≤ out.length ∧
        out.head? = points.head? ∧ out.getLast? = points.getLast?) ∧
    (∀ (contours : List (List (ℤ × ℤ))) (epsilon : ℝ), 0 ≤ epsilon →
      (∀ c ∈ contours, 2 ≤ c.length) →
      ∃ outs, simplify_contours contours epsilon = some outs ∧
        outs.length = contours.length) := by
  have hmain : ∀ (points : List (ℝ × ℝ)) (epsilon : ℝ), 0 ≤ epsilon →
      2 ≤ points.length →
      ∃ out, ramer_douglas_peucker points epsilon = some out ∧ 2 ≤ out.length ∧
        out.head? = points.head? ∧ out.getLast? = points.getLast? := by
    intro points epsilon heps hlen
    obtain ⟨out, hout⟩ := rdp_fuel_isSome (points.length + 1) points epsilon heps (by omega)
    obtain ⟨h1, h2, h3⟩ := rdp_fuel_endpoints _ _ _ _ hout hlen
    exact ⟨out, hout, h1, h2, h3⟩
  refine ⟨hmain, ?_⟩
  intro contours
  induction contours with
  | nil => intro epsilon heps hc; exact ⟨[], rfl, rfl⟩
  | cons c rest ih =>
    intro epsilon heps hc
    have hclen : 2 ≤ c.length := hc c (List.mem_cons_self _ _)
    have hmaplen : 2 ≤ (c.map (fun p => ((p.1 : ℝ), (p.2 : ℝ)))).length := by
      rw [List.length_map]
      exact hclen
    obtain ⟨out, hout, houtlen, _, _⟩ := hmain _ epsilon heps hmaplen
    obtain ⟨touts, htail, htlen⟩ := ih epsilon heps
      (fun x hx => hc x (List.mem_cons_of_mem _ hx))
    rw [simplify_contours, if_pos hclen, hout]
    dsimp only
    rw [htail]
    dsimp only
    rw [if_pos (by rw [List.length_map]; exact houtlen)]
    refine ⟨_, rfl, ?_⟩
    simp [htlen]

/-- Witness for the amended C10 at a two-point segment with `epsilon = 0`. -/
theorem ramer_douglas_peucker_preserves_endpoints_witness :
    (∃ out, ramer_douglas_peucker [((0:ℝ), 0), (1, 1)] 0 = some out ∧
      2 ≤ out.length ∧ out.head? = some ((0:ℝ), 0) ∧
      out.getLast? = some ((1:ℝ), 1)) ∧
    (∃ outs, simplify_contours [[((0:ℤ), 0), (1, 1)]] 0 = some outs ∧
      outs.length = 1) := by
  constructor
  · have h := ramer_douglas_peucker_preserves_endpoints.1 [((0:ℝ), 0), (1, 1)] 0
      le_rfl (by norm_num)
    simpa using h
  · have h := ramer_douglas_peucker_preserves_endpoints.2 [[((0:ℤ), 0), (1, 1)]] 0
      le_rfl (by intro x hx; rw [List.mem_singleton] at hx; subst hx; norm_num)
    simpa using h

/-- Counterexample to C10 as stated for every `epsilon`: with `epsilon = -1`
the Python recursion never terminates on a collinear triple (the farthest
index is `0` and `points[0:]` is the whole list), so no sequence at all is
returned; the embedding yields `none` for every sufficient fuel. -/
theorem ramer_douglas_peucker_neg_eps_counterexample :
    ramer_douglas_peucker [((0:ℝ), 0), (1, 0), (2, 0)] (-1) = none ∧
      ¬∃ out, ramer_douglas_peucker [((0:ℝ), 0), (1, 0), (2, 0)] (-1) = some out ∧
        2 ≤ out.length := by
  have hnone : ramer_douglas_peucker [((0:ℝ), 0), (1, 0), (2, 0)] (-1) = none := by
    show rdp_fuel 4 [((0:ℝ), 0), (1, 0), (2, 0)] (-1) = none
    rw [show (4:ℕ) = 2 + 2 from rfl, rdp_neg_eps_step 2,
      show 2 + 1 = 1 + 2 from rfl, rdp_neg_eps_step 1,
      show 1 + 1 = 0 + 2 from rfl, rdp_neg_eps_step 0]
    exact rdp_neg_eps_base
  refine ⟨hnone, ?_⟩
  rw [hnone]
  simp

/-! ### Claim C8: the decode stage of `procesar_imagen` -/

/-- The exception kinds the decode stage of `procesar_imagen` (`extractor.py`
lines 427–440) can propagate: the untranslated exception of the external
decoding library (`pdf2image.convert_from_bytes` / `PIL.Image.open`), carried
here by its message, or Python's built-in generic `IndexError` raised by
`pages[0]` on a zero-page document.  The repository defines no exception
class of its own and performs no exception translation. -/
inductive PyExc where
  | libraryError (msg : String)
  | indexError
  deriving DecidableEq

/-- The decode stage of `procesar_imagen`: `convert_from_bytes`/`pages[0]`
for the PDF path, `Image.open` otherwise.  The external library calls are
parameters (their outcome is `Except.error msg` when the library raises);
the repository code merely selects the path and indexes the first page. -/
def decode_stage {α : Type} (isPdf : Bool) (convertResult : Except String (List α))
    (openResult : Except String α) : Except PyExc α :=
  if isPdf then
    match convertResult with
    | Except.error msg => Except.error (PyExc.libraryError msg)
    | Except.ok pages =>
      match pages with
      | [] => Except.error PyExc.indexError
      | page :: _ => Except.ok page
  else
    match openResult with
    | Except.error msg => Except.error (PyExc.libraryError msg)
    | Except.ok img => Except.ok img

/-- `procesar_imagen` as seen from its decode stage: the rest of the pipeline
(preprocessing through `ExtractionResult` assembly) runs only on a
successfully decoded raster, so a decode failure yields no partial result. -/
def procesar_imagen_decode {α β : Type} (isPdf : Bool)
    (convertResult : Except String (List α)) (openResult : Except String α)
    (rest : α → β) : Except PyExc β :=
  (decode_stage isPdf convertResult openResult).map rest

/-- Counterexample to C8: decode failures do raise, but not a dedicated
`DecodeError` kind — a zero-page document raises the generic `IndexError`
while unreadable bytes re-raise the library's own exception, two distinct
kinds, and no `DecodeError` class exists anywhere in the repository. -/
theorem decode_stage_counterexample :
    decode_stage true (Except.ok ([] : List ℕ)) (Except.ok 0)
        = Except.error PyExc.indexError ∧
      decode_stage false (Except.ok ([] : List ℕ))
          (Except.error "cannot identify image file")
        = Except.error (PyExc.libraryError "cannot identify image file") ∧
      PyExc.indexError ≠ PyExc.libraryError "cannot identify image file" := by
  refine ⟨rfl, rfl, ?_⟩
  intro h
  exact PyExc.noConfusion h

/-- C8 (amended): decoding failures propagate the underlying library's
exception unchanged (zero-page documents raise the generic `IndexError`), and
in every failing case `procesar_imagen` produces no (partial)
`ExtractionResult` — the error short-circuits before the pipeline runs. -/
theorem decode_errors_propagate :
    (∀ (α β : Type) (isPdf : Bool) (conv : Except String (List α))
        (openR : Except String α) (rest : α → β) (e : PyExc),
      decode_stage isPdf conv openR = Except.error e →
      procesar_imagen_decode isPdf conv openR rest = Except.error e) ∧
    (∀ (α β : Type) (msg : String) (openR : Except String α) (rest : α → β),
      procesar_imagen_decode true (Except.error msg) openR rest
        = Except.error (PyExc.libraryError msg)) ∧
    (∀ (α β : Type) (openR : Except String α) (rest : α → β),
      procesar_imagen_decode true (Except.ok []) openR rest
        = Except.error PyExc.indexError) ∧
    (∀ (α β : Type) (conv : Except String (List α)) (msg : String) (rest : α → β),
      procesar_imagen_decode false conv (Except.error msg) rest
        = Except.error (PyExc.libraryError msg)) := by
  refine ⟨?_, ?_, ?_, ?_⟩
  · intro α β isPdf conv openR rest e h
    unfold procesar_imagen_decode
    rw [h]
    rfl
  · intro α β msg openR rest
    rfl
  · intro α β openR rest
    rfl
  · intro α β conv msg rest
    cases conv <;> rfl

/-- Witness for the amended C8 at a zero-page document. -/
theorem decode_errors_propagate_witness :
    procesar_imagen_decode true (Except.ok ([] : List ℕ)) (Except.ok 0)
        (fun n => n + 1) = Except.error PyExc.indexError :=
  decode_errors_propagate.1 ℕ ℕ true (Except.ok []) (Except.ok 0)
    (fun n => n + 1) PyExc.indexError rfl

/-! ### Claim C9: the minimum-area contour filter -/

/-- The contour filtering loop of `procesar_imagen` (`extractor.py` lines
456–464): `for i, contour in enumerate(contours): if cv2.contourArea(contour)
> cfg["min_contour_area"]: append contour (and hierarchy[0][i] when a
hierarchy is present)`. -/
noncomputable def filter_contours_by_area {H : Type} (contours : List (List (ℤ × ℤ)))
    (hierarchy : Option (List H)) (min_contour_area : ℝ) :
    List (List (ℤ × ℤ)) × List H :=
  contours.enum.foldl
    (fun acc ic =>
      if (contourArea ic.2 : ℝ) > min_contour_area then
        (acc.1 ++ [ic.2],
         match hierarchy with
         | some hs => acc.2 ++ (hs.get? ic.1).toList
         | none => acc.2)
      else acc)
    ([], [])

/-- Counterexample to C9: a contour whose area equals `min_contour_area`
exactly is discarded, because the code keeps only strictly greater areas
(`>`), while the claim says every contour with area ≥ the threshold is
retained. -/
theorem filter_contours_by_area_counterexample :
    (contourArea [((0:ℤ), 0), (10, 0), (10, 10), (0, 10)] : ℝ) = 100 ∧
      (100:ℝ) ≤ 100 ∧
      (filter_contours_by_area [[((0:ℤ), 0), (10, 0), (10, 10), (0, 10)]]
        (some [(0:ℤ)]) 100).1 = [] := by
  have harea : (contourArea [((0:ℤ), 0), (10, 0), (10, 10), (0, 10)] : ℝ) = 100 := by
    norm_num [contourArea, shoelace_sum, List.range_succ]
  refine ⟨harea, le_refl _, ?_⟩
  unfold filter_contours_by_area
  dsimp only
  simp only [List.enum, List.enumFrom_cons, List.enumFrom_nil, List.foldl_cons,
    List.foldl_nil]
  rw [if_neg (by rw [harea]; exact lt_irrefl _)]

theorem filter_contours_aux {H : Type} (hs : List H) (m : ℝ) :
    ∀ (cs : List (List (ℤ × ℤ))) (ds : List H) (k : ℕ)
      (acc : List (List (ℤ × ℤ)) × List H),
      hs.drop k = ds → ds.length = cs.length →
      (List.enumFrom k cs).foldl
        (fun acc ic =>
          if (contourArea ic.2 : ℝ) > m then
            (acc.1 ++ [ic.2], acc.2 ++ (hs.get? ic.1).toList)
          else acc) acc =
      (acc.1 ++ ((cs.zip ds).filter
          (fun p => decide (m < (contourArea p.1 : ℝ)))).unzip.1,
        acc.2 ++ ((cs.zip ds).filter
          (fun p => decide (m < (contourArea p.1 : ℝ)))).unzip.2) := by
  intro cs
  induction cs with
  | nil =>
    intro ds k acc hdrop hlen
    simp
  | cons c cs ih =>
    intro ds k acc hdrop hlen
    cases ds with
    | nil => simp at hlen
    | cons d ds2 =>
      have hget : hs.get? k = some d := by
        have h0 : (hs.drop k).get? 0 = hs.get? (k + 0) := List.get?_drop hs k 0
        rw [hdrop] at h0
        simpa using h0.symm
      have hgetElem : hs[k]? = some d := by
        rw [← List.get?_eq_getElem?]
        exact hget
      have hdrop2 : hs.drop (k + 1) = ds2 := by
        rw [← List.drop_drop 1 k hs, hdrop]
        rfl
      have hlen2 : ds2.length = cs.length := by simpa using hlen
      rw [List.enumFrom_cons, List.foldl_cons]
      by_cases hp : (contourArea c : ℝ) > m
      · rw [if_pos hp, ih ds2 (k + 1) _ hdrop2 hlen2]
        rw [List.zip_cons_cons, List.filter_cons_of_pos (by simpa using hp)]
        simp [hget, hgetElem, List.unzip_cons, List.append_assoc]
      · rw [if_neg hp, ih ds2 (k + 1) _ hdrop2 hlen2]
        rw [List.zip_cons_cons, List.filter_cons_of_neg (by simpa using hp)]

/-- C9 (amended): exactly the contours whose enclosed area is strictly
greater than `min_contour_area` are retained (in input order, together with
their hierarchy rows); contours with area ≤ `min_contour_area`, including
area exactly equal to the threshold, are discarded. -/
theorem filter_contours_by_area_eq {H : Type} (contours : List (List (ℤ × ℤ)))
    (hs : List H) (m : ℝ) (hlen : hs.length = contours.length) :
    filter_contours_by_area contours (some hs) m =
      ((contours.zip hs).filter
        (fun p => decide (m < (contourArea p.1 : ℝ)))).unzip := by
  unfold filter_contours_by_area
  dsimp only
  have h := filter_contours_aux hs m contours hs 0 ([], []) (by rfl) hlen
  rw [show List.enum contours = List.enumFrom 0 contours from rfl]
  rw [h]
  simp [List.unzip_eq_map]

/-- Witness for the amended C9: a 3-unit square against threshold 4 (area 9
is kept) next to threshold 9 (area 9 is dropped). -/
theorem filter_contours_by_area_eq_witness :
    filter_contours_by_area [[((0:ℤ), 0), (3, 0), (3, 3), (0, 3)]]
        (some [(7:ℤ)]) 4 =
      (([[((0:ℤ), 0), (3, 0), (3, 3), (0, 3)]].zip [(7:ℤ)]).filter
        (fun p => decide ((4:ℝ) < (contourArea p.1 : ℝ)))).unzip :=
  filter_contours_by_area_eq [[((0:ℤ), 0), (3, 0), (3, 3), (0, 3)]] [(7:ℤ)] 4 rfl

/-! ### `merge_nearby_endpoints` (claims C5, C6) -/

/-- One endpoint record `(x, y, contour_idx, is_start)` as collected by
`merge_nearby_endpoints` (`extractor.py` lines 273–283). -/
structure Endpoint where
  x : ℤ
  y : ℤ
  contour_idx : ℕ
  is_start : Bool
  deriving DecidableEq

/-- Default endpoint used only to totalise list indexing (every access in the
embedding is within bounds, mirroring the in-range Python indices). -/
def dfltEndpoint : Endpoint := ⟨0, 0, 0, false⟩

/-- The inline Euclidean distance `math.sqrt((x1-x2)**2 + (y1-y2)**2)`. -/
noncomputable def pdist (x1 y1 x2 y2 : ℤ) : ℝ :=
  Real.sqrt (((x1 - x2 : ℤ) : ℝ) ^ 2 + ((y1 - y2 : ℤ) : ℝ) ^ 2)

/-- Endpoint collection (`extractor.py` lines 273–283): each contour of at
least two points contributes its first point (tagged `is_start = true`) and
its last point (tagged `is_start = false`), in contour order. -/
def collect_endpoints (contours : List (List (ℤ × ℤ))) : List Endpoint :=
  contours.enum.foldl
    (fun acc ic =>
      if 2 ≤ ic.2.length then
        acc ++ [⟨(ic.2.getD 0 (0, 0)).1, (ic.2.getD 0 (0, 0)).2, ic.1, true⟩,
                ⟨(ic.2.getD (ic.2.length - 1) (0, 0)).1,
                 (ic.2.getD (ic.2.length - 1) (0, 0)).2, ic.1, false⟩]
      else acc) []

/-- A selected pair `((c1, is_start1), (c2, is_start2), distance)` exactly as
appended to `merge_pairs` by the Python loop. -/
abbrev MergePair := (ℕ × Bool) × (ℕ × Bool) × ℝ

/-- The acceptance condition of the inner scan (`extractor.py` lines
293–298): endpoint `j` is not yet consumed, belongs to a different contour
than endpoint `i`, and lies within `merge_distance`. -/
noncomputable def partner_ok (endpoints : List Endpoint) (m : ℝ) (i : ℕ)
    (used : Finset ℕ) (j : ℕ) : Bool :=
  decide (¬(j ∈ used ∨ (endpoints.getD j dfltEndpoint).contour_idx
      = (endpoints.getD i dfltEndpoint).contour_idx) ∧
    pdist (endpoints.getD i dfltEndpoint).x (endpoints.getD i dfltEndpoint).y
      (endpoints.getD j dfltEndpoint).x (endpoints.getD j dfltEndpoint).y ≤ m)

/-- The tuple appended for an accepted pair `(i, j)`. -/
noncomputable def endpoint_pair (endpoints : List Endpoint) (i j : ℕ) : MergePair :=
  let e1 := endpoints.getD i dfltEndpoint
  let e2 := endpoints.getD j dfltEndpoint
  ((e1.contour_idx, e1.is_start), (e2.contour_idx, e2.is_start),
    pdist e1.x e1.y e2.x e2.y)

/-- One outer-loop step of the pair selection (`extractor.py` lines
289–302): a consumed endpoint `i` is skipped; otherwise `i` is paired with
the first later endpoint accepted by `partner_ok` (the Python inner loop
`continue`s over consumed or same-contour endpoints and `break`s on the
first within-range one), and both are marked consumed. -/
noncomputable def select_step (endpoints : List Endpoint) (m : ℝ)
    (st : List MergePair × Finset ℕ) (i : ℕ) : List MergePair × Finset ℕ :=
  if i ∈ st.2 then st
  else
    match (List.range' (i + 1) (endpoints.length - (i + 1))).find?
        (partner_ok endpoints m i st.2) with
    | none => st
    | some j => (st.1 ++ [endpoint_pair endpoints i j], insert i (insert j st.2))

/-- Pair selection (`extractor.py` lines 285–302): the outer scan over all
endpoint indices in order. -/
noncomputable def select_merge_pairs (endpoints : List Endpoint) (m : ℝ) :
    List MergePair × Finset ℕ :=
  (List.range endpoints.length).foldl (select_step endpoints m) ([], ∅)

/-- One merge application (`extractor.py` lines 312–345): skip indices out of
range and empty/removed slots, orient the two contours so the matched
endpoints are adjacent, store the concatenation in slot `c1` and mark slot
`c2` removed (`None`). -/
def apply_merge (st : List (Option (List (ℤ × ℤ)))) (pr : MergePair) :
    List (Option (List (ℤ × ℤ))) :=
  let c1 := pr.1.1
  let c2 := pr.2.1.1
  if c1 < st.length ∧ c2 < st.length then
    match st.getD c1 none, st.getD c2 none with
    | some contour1, some contour2 =>
      if contour1 = [] ∨ contour2 = [] then st
      else
        let merged :=
          if pr.1.2 && pr.2.1.2 then contour1.reverse ++ contour2
          else if pr.1.2 && !pr.2.1.2 then contour2 ++ contour1
          else if !pr.1.2 && pr.2.1.2 then contour1 ++ contour2
          else contour1 ++ contour2.reverse
        (st.set c1 (some merged)).set c2 none
    | _, _ => st
  else st

/-- `merge_nearby_endpoints` (`extractor.py` lines 245–351): collect
endpoints, select pairs by the index-order greedy scan, sort the selected
pairs by ascending distance, apply the fusions in that order, then drop
removed slots and contours shorter than two points.  (The duplicated early
return and the progress prints have no effect on the result.) -/
noncomputable def merge_nearby_endpoints (contours : List (List (ℤ × ℤ)))
    (image_shape : ℕ × ℕ) (merge_distance_percent : ℝ) : List (List (ℤ × ℤ)) :=
  if contours.length < 2 then contours
  else
    let image_diagonal :=
      Real.sqrt ((image_shape.2 : ℝ) ^ 2 + (image_shape.1 : ℝ) ^ 2)
    let merge_distance := image_diagonal * merge_distance_percent
    let endpoints := collect_endpoints contours
    let merge_pairs := (select_merge_pairs endpoints merge_distance).1
    let sorted_pairs := merge_pairs.mergeSort (fun a b => decide (a.2.2 ≤ b.2.2))
    let merged_contours := sorted_pairs.foldl apply_merge (contours.map some)
    (merged_contours.filterMap id).filter (fun c => decide (2 ≤ c.length))

/-! ### Conservation through the merge application (claim C6) -/

/-- Total vertex count held in the mutable slot list (`None` counts 0). -/
def optLenSum (st : List (Option (List (ℤ × ℤ)))) : ℕ :=
  (st.map (fun o => (o.getD []).length)).sum

theorem sum_set_nat :
    ∀ (l : List ℕ) (i : ℕ) (v : ℕ), i < l.length →
      (l.set i v).sum + l.getD i 0 = l.sum + v := by
  intro l
  induction l with
  | nil => intro i v h; simp at h
  | cons x xs ih =>
    intro i v h
    cases i with
    | zero => simp [List.set]; omega
    | succ n =>
      have hn : n < xs.length := by simpa using h
      have hstep := ih n v hn
      rw [List.set_cons_succ, List.getD_cons_succ]
      simp only [List.sum_cons]
      omega

theorem getD_set_ne {α : Type} (l : List α) (i j : ℕ) (v d : α) (h : i ≠ j) :
    (l.set i v).getD j d = l.getD j d := by
  rw [List.getD_eq_getElem?_getD, List.getD_eq_getElem?_getD, List.getElem?_set_ne h]

theorem getD_map_of_lt {α β : Type} (f : α → β) (l : List α) (i : ℕ) (d0 : β)
    (d1 : α) (h : i < l.length) : (l.map f).getD i d0 = f (l.getD i d1) := by
  have hm : i < (l.map f).length := by simpa using h
  rw [List.getD_eq_getElem _ _ hm, List.getD_eq_getElem _ _ h, List.getElem_map]

theorem apply_merge_optLenSum (st : List (Option (List (ℤ × ℤ)))) (pr : MergePair)
    (hne : pr.1.1 ≠ pr.2.1.1) : optLenSum (apply_merge st pr) = optLenSum st := by
  unfold apply_merge
  dsimp only
  by_cases hb : pr.1.1 < st.length ∧ pr.2.1.1 < st.length
  · rw [if_pos hb]
    rcases h1 : st.getD pr.1.1 none with _ | l1
    · rfl
    rcases h2 : st.getD pr.2.1.1 none with _ | l2
    · rfl
    dsimp only
    by_cases hemp : l1 = [] ∨ l2 = []
    · rw [if_pos hemp]
    rw [if_neg hemp]
    set merged := if pr.1.2 && pr.2.1.2 then l1.reverse ++ l2
      else if pr.1.2 && !pr.2.1.2 then l2 ++ l1
      else if !pr.1.2 && pr.2.1.2 then l1 ++ l2
      else l1 ++ l2.reverse with hmerged
    have hmlen : merged.length = l1.length + l2.length := by
      rw [hmerged]
      split_ifs <;> simp [List.length_append, List.length_reverse] <;> omega
    unfold optLenSum
    rw [List.map_set, List.map_set]
    have hlen1 : (st.map (fun o => (o.getD []).length)).length = st.length := by
      simp
    have hset1len : ((st.map (fun o => (o.getD []).length)).set pr.1.1
        ((some merged).getD []).length).length = st.length := by
      rw [List.length_set]
      exact hlen1
    have hs2 := sum_set_nat ((st.map (fun o => (o.getD []).length)).set pr.1.1
      ((some merged).getD []).length) pr.2.1.1 ((none : Option (List (ℤ × ℤ))).getD []).length
      (by rw [hset1len]; exact hb.2)
    have hs1 := sum_set_nat (st.map (fun o => (o.getD []).length)) pr.1.1
      ((some merged).getD []).length (by rw [hlen1]; exact hb.1)
    have hg1 : (st.map (fun o => (o.getD []).length)).getD pr.1.1 0
        = (st.getD pr.1.1 none |>.getD []).length :=
      getD_map_of_lt _ _ _ _ none hb.1
    have hg2 : ((st.map (fun o => (o.getD []).length)).set pr.1.1
          ((some merged).getD []).length).getD pr.2.1.1 0
        = (st.map (fun o => (o.getD []).length)).getD pr.2.1.1 0 :=
      getD_set_ne _ _ _ _ _ hne
    have hg3 : (st.map (fun o => (o.getD []).length)).getD pr.2.1.1 0
        = (st.getD pr.2.1.1 none |>.getD []).length :=
      getD_map_of_lt _ _ _ _ none hb.2
    rw [hg2, hg3, h2] at hs2
    rw [hg1, h1] at hs1
    simp only [Option.getD_some, Option.getD_none, List.length_nil] at hs1 hs2 ⊢
    omega
  · rw [if_neg hb]

theorem foldl_apply_merge_optLenSum :
    ∀ (prs : List MergePair) (st : List (Option (List (ℤ × ℤ)))),
      (∀ pr ∈ prs, pr.1.1 ≠ pr.2.1.1) →
      optLenSum (prs.foldl apply_merge st) = optLenSum st := by
  intro prs
  induction prs with
  | nil => intro st _; rfl
  | cons p ps ih =>
    intro st hall
    rw [List.foldl_cons]
    rw [ih _ (fun pr hpr => hall pr (List.mem_cons_of_mem _ hpr))]
    exact apply_merge_optLenSum st p (hall p (List.mem_cons_self _ _))

theorem select_merge_pairs_distinct (endpoints : List Endpoint) (m : ℝ) :
    ∀ pr ∈ (select_merge_pairs endpoints m).1, pr.1.1 ≠ pr.2.1.1 := by
  unfold select_merge_pairs
  suffices h : ∀ (l : List ℕ) (st : List MergePair × Finset ℕ),
      (∀ pr ∈ st.1, pr.1.1 ≠ pr.2.1.1) →
      ∀ pr ∈ (l.foldl (select_step endpoints m) st).1, pr.1.1 ≠ pr.2.1.1 by
    exact h (List.range endpoints.length) ([], ∅) (by intro pr hpr; simp at hpr)
  intro l
  induction l with
  | nil => intro st hst; exact hst
  | cons i rest ih =>
    intro st hst
    rw [List.foldl_cons]
    unfold select_step
    by_cases hiu : i ∈ st.2
    · rw [if_pos hiu]
      exact ih st hst
    rw [if_neg hiu]
    rcases hfind : (List.range' (i + 1) (endpoints.length - (i + 1))).find?
        (partner_ok endpoints m i st.2) with _ | j
    · exact ih st hst
    · apply ih
      intro pr hpr
      rw [List.mem_append] at hpr
      rcases hpr with hpr | hpr
      · exact hst pr hpr
      · rw [List.mem_singleton] at hpr
        subst hpr
        have hok := List.find?_some hfind
        unfold partner_ok at hok
        have hprop := of_decide_eq_true hok
        push_neg at hprop
        unfold endpoint_pair
        dsimp only
        exact fun hcontra => hprop.1.2 hcontra.symm

theorem optLenSum_map_some (contours : List (List (ℤ × ℤ))) :
    optLenSum (contours.map some) = (contours.map List.length).sum := by
  unfold optLenSum
  rw [List.map_map]
  rfl

theorem filterMap_id_optLenSum :
    ∀ st : List (Option (List (ℤ × ℤ))),
      ((st.filterMap id).map List.length).sum = optLenSum st := by
  intro st
  induction st with
  | nil => rfl
  | cons o rest ih =>
    cases o with
    | none => simpa [optLenSum, List.filterMap_cons] using ih
    | some v => simpa [optLenSum, List.filterMap_cons] using ih

/-- C6: `merge_nearby_endpoints` never increases the total vertex count
beyond the sum of the inputs, and every selected merge pair joins two
distinct contour slots (the selection explicitly skips same-contour
endpoint pairs), so a contour is never concatenated with itself. -/
theorem merge_nearby_endpoints_conserves (contours : List (List (ℤ × ℤ)))
    (image_shape : ℕ × ℕ) (pct : ℝ) :
    ((merge_nearby_endpoints contours image_shape pct).map List.length).sum ≤
        (contours.map List.length).sum ∧
      ∀ pr ∈ (select_merge_pairs (collect_endpoints contours)
          (Real.sqrt ((image_shape.2 : ℝ) ^ 2 + (image_shape.1 : ℝ) ^ 2) * pct)).1,
        pr.1.1 ≠ pr.2.1.1 := by
  constructor
  · unfold merge_nearby_endpoints
    by_cases hshort : contours.length < 2
    · rw [if_pos hshort]
    rw [if_neg hshort]
    dsimp only
    have hdistinct : ∀ pr ∈ ((select_merge_pairs (collect_endpoints contours)
        (Real.sqrt ((image_shape.2 : ℝ) ^ 2 + (image_shape.1 : ℝ) ^ 2) * pct)).1).mergeSort
          (fun a b => decide (a.2.2 ≤ b.2.2)), pr.1.1 ≠ pr.2.1.1 := by
      intro pr hpr
      exact select_merge_pairs_distinct _ _ pr (List.mem_mergeSort.mp hpr)
    have hsum := foldl_apply_merge_optLenSum _ (contours.map some) hdistinct
    calc ((((select_merge_pairs (collect_endpoints contours)
            (Real.sqrt ((image_shape.2 : ℝ) ^ 2 + (image_shape.1 : ℝ) ^ 2) * pct)).1).mergeSort
              (fun a b => decide (a.2.2 ≤ b.2.2))).foldl apply_merge
            (contours.map some) |>.filterMap id |>.filter
              (fun c => decide (2 ≤ c.length)) |>.map List.length).sum
        ≤ ((((select_merge_pairs (collect_endpoints contours)
            (Real.sqrt ((image_shape.2 : ℝ) ^ 2 + (image_shape.1 : ℝ) ^ 2) * pct)).1).mergeSort
              (fun a b => decide (a.2.2 ≤ b.2.2))).foldl apply_merge
            (contours.map some) |>.filterMap id |>.map List.length).sum := by
          apply List.Sublist.sum_le_sum
          · exact List.Sublist.map _ (List.filter_sublist _)
          · intro a _
            exact Nat.zero_le a
      _ = optLenSum ((((select_merge_pairs (collect_endpoints contours)
            (Real.sqrt ((image_shape.2 : ℝ) ^ 2 + (image_shape.1 : ℝ) ^ 2) * pct)).1).mergeSort
              (fun a b => decide (a.2.2 ≤ b.2.2))).foldl apply_merge
            (contours.map some)) := filterMap_id_optLenSum _
      _ = optLenSum (contours.map some) := hsum
      _ = (contours.map List.length).sum := optLenSum_map_some contours
  · exact select_merge_pairs_distinct _ _

/-! ### Claim C5: how merge pairs are actually selected -/

/-- Recursive restatement of the code's selection rule: scan endpoint indices
in increasing order; each unconsumed index is paired with the first (lowest
index) later endpoint accepted by `partner_ok`. -/
noncomputable def greedy_select_aux (endpoints : List Endpoint) (m : ℝ) :
    List ℕ → Finset ℕ → List MergePair
  | [], _ => []
  | i :: rest, used =>
    if i ∈ used then greedy_select_aux endpoints m rest used
    else
      match (List.range' (i + 1) (endpoints.length - (i + 1))).find?
          (partner_ok endpoints m i used) with
      | none => greedy_select_aux endpoints m rest used
      | some j => endpoint_pair endpoints i j ::
          greedy_select_aux endpoints m rest (insert i (insert j used))

theorem select_foldl_eq_greedy (endpoints : List Endpoint) (m : ℝ) :
    ∀ (l : List ℕ) (pairs : List MergePair) (used : Finset ℕ),
      (l.foldl (select_step endpoints m) (pairs, used)).1
        = pairs ++ greedy_select_aux endpoints m l used := by
  intro l
  induction l with
  | nil => intro pairs used; simp [greedy_select_aux]
  | cons i rest ih =>
    intro pairs used
    rw [List.foldl_cons]
    rw [greedy_select_aux]
    rw [select_step]
    dsimp only
    by_cases hiu : i ∈ used
    · rw [if_pos hiu, if_pos hiu]
      exact ih pairs used
    rw [if_neg hiu, if_neg hiu]
    rcases hfind : (List.range' (i + 1) (endpoints.length - (i + 1))).find?
        (partner_ok endpoints m i used) with _ | j
    · dsimp only
      exact ih pairs used
    · dsimp only
      rw [ih (pairs ++ [endpoint_pair endpoints i j]) (insert i (insert j used))]
      rw [List.append_assoc]
      rfl

/-- C5 (amended): the accepted pairs are produced by the index-order greedy
scan (`greedy_select_aux`) — each unconsumed endpoint is matched with the
first later in-range endpoint of another contour, not with the nearest one —
and the sort by ascending distance orders only the application of the
accepted merges (`sorted_pairs` is a permutation of the selection, sorted by
distance). -/
theorem merge_pairs_selection_characterised (endpoints : List Endpoint) (m : ℝ) :
    (select_merge_pairs endpoints m).1
        = greedy_select_aux endpoints m (List.range endpoints.length) ∅ ∧
      List.Sorted (fun a b : MergePair => a.2.2 ≤ b.2.2)
        (((select_merge_pairs endpoints m).1).mergeSort
          (fun a b => decide (a.2.2 ≤ b.2.2))) ∧
      (((select_merge_pairs endpoints m).1).mergeSort
        (fun a b => decide (a.2.2 ≤ b.2.2))).Perm (select_merge_pairs endpoints m).1 := by
  refine ⟨?_, ?_, List.mergeSort_perm _ _⟩
  · unfold select_merge_pairs
    have h := select_foldl_eq_greedy endpoints m (List.range endpoints.length) [] ∅
    simpa using h
  · have hs := @List.sorted_mergeSort MergePair
      (fun a b => decide (a.2.2 ≤ b.2.2))
      (fun a b c hab hbc =>
        decide_eq_true (le_trans (of_decide_eq_true hab) (of_decide_eq_true hbc)))
      (fun a b => by
        show (decide (a.2.2 ≤ b.2.2) || decide (b.2.2 ≤ a.2.2)) = true
        rcases le_total a.2.2 b.2.2 with h | h
        · rw [decide_eq_true h, Bool.true_or]
        · rw [decide_eq_true h, Bool.or_true])
      ((select_merge_pairs endpoints m).1)
    exact hs.imp (fun h => of_decide_eq_true h)

/-- Test plan for the selection-rule counterexample: three horizontal
segments whose nearby endpoints are `e1 = (100,0)` (end of contour 0),
`e2 = (104,0)` (start of contour 1) and `e4 = (103,0)` (start of contour 2),
with `merge_distance = 5`. -/
def testContours : List (List (ℤ × ℤ)) :=
  [[(0, 0), (100, 0)], [(104, 0), (200, 0)], [(103, 0), (300, 0)]]

/-- The endpoints collected from `testContours`, in collection order. -/
def testEndpoints : List Endpoint :=
  [⟨0, 0, 0, true⟩, ⟨100, 0, 0, false⟩, ⟨104, 0, 1, true⟩,
   ⟨200, 0, 1, false⟩, ⟨103, 0, 2, true⟩, ⟨300, 0, 2, false⟩]

theorem collect_testContours : collect_endpoints testContours = testEndpoints := by
  rfl

theorem pdist_horiz (a b : ℤ) : pdist a 0 b 0 = |((a - b : ℤ) : ℝ)| := by
  unfold pdist
  norm_num
  exact Real.sqrt_sq_eq_abs _

theorem d02 : ¬ (pdist 0 0 104 0 ≤ (5:ℝ)) := by
  rw [pdist_horiz]
  norm_num

theorem d03 : ¬ (pdist 0 0 200 0 ≤ (5:ℝ)) := by
  rw [pdist_horiz]
  norm_num

theorem d04 : ¬ (pdist 0 0 103 0 ≤ (5:ℝ)) := by
  rw [pdist_horiz]
  norm_num

theorem d05 : ¬ (pdist 0 0 300 0 ≤ (5:ℝ)) := by
  rw [pdist_horiz]
  norm_num

theorem d12 : pdist 100 0 104 0 ≤ (5:ℝ) := by
  rw [pdist_horiz]
  norm_num

theorem d13 : ¬ (pdist 100 0 200 0 ≤ (5:ℝ)) := by
  rw [pdist_horiz]
  norm_num

theorem d14 : pdist 100 0 103 0 ≤ (5:ℝ) := by
  rw [pdist_horiz]
  norm_num

theorem d15 : ¬ (pdist 100 0 300 0 ≤ (5:ℝ)) := by
  rw [pdist_horiz]
  norm_num

theorem d24 : pdist 104 0 103 0 ≤ (5:ℝ) := by
  rw [pdist_horiz]
  norm_num

theorem d25 : ¬ (pdist 104 0 300 0 ≤ (5:ℝ)) := by
  rw [pdist_horiz]
  norm_num

theorem d34 : ¬ (pdist 200 0 103 0 ≤ (5:ℝ)) := by
  rw [pdist_horiz]
  norm_num

theorem d35 : ¬ (pdist 200 0 300 0 ≤ (5:ℝ)) := by
  rw [pdist_horiz]
  norm_num

theorem pok01 (used : Finset ℕ) : partner_ok testEndpoints 5 0 used 1 = false := by
  unfold partner_ok
  apply decide_eq_false
  intro hp
  exact hp.1 (Or.inr rfl)

theorem pok02 (used : Finset ℕ) : partner_ok testEndpoints 5 0 used 2 = false := by
  unfold partner_ok
  apply decide_eq_false
  intro hp
  exact d02 hp.2

theorem pok03 (used : Finset ℕ) : partner_ok testEndpoints 5 0 used 3 = false := by
  unfold partner_ok
  apply decide_eq_false
  intro hp
  exact d03 hp.2

theorem pok04 (used : Finset ℕ) : partner_ok testEndpoints 5 0 used 4 = false := by
  unfold partner_ok
  apply decide_eq_false
  intro hp
  exact d04 hp.2

theorem pok05 (used : Finset ℕ) : partner_ok testEndpoints 5 0 used 5 = false := by
  unfold partner_ok
  apply decide_eq_false
  intro hp
  exact d05 hp.2

theorem pok12 : partner_ok testEndpoints 5 1 (∅ : Finset ℕ) 2 = true := by
  unfold partner_ok
  apply decide_eq_true
  refine ⟨?_, d12⟩
  intro hor
  rcases hor with h | h
  · simp at h
  · exact absurd h (by decide)

theorem pok34 (used : Finset ℕ) : partner_ok testEndpoints 5 3 used 4 = false := by
  unfold partner_ok
  apply decide_eq_false
  intro hp
  exact d34 hp.2

theorem pok35 (used : Finset ℕ) : partner_ok testEndpoints 5 3 used 5 = false := by
  unfold partner_ok
  apply decide_eq_false
  intro hp
  exact d35 hp.2

theorem pok45 (used : Finset ℕ) : partner_ok testEndpoints 5 4 used 5 = false := by
  unfold partner_ok
  apply decide_eq_false
  intro hp
  exact hp.1 (Or.inr rfl)

theorem select_step0 : select_step testEndpoints 5 ([], ∅) 0 = ([], ∅) := by
  rw [select_step]
  dsimp only
  rw [if_neg (by simp)]
  rw [show List.range' (0 + 1) (testEndpoints.length - (0 + 1)) = [1, 2, 3, 4, 5] from rfl]
  rw [List.find?_cons_of_neg _ (by simp [pok01]), List.find?_cons_of_neg _ (by simp [pok02]),
    List.find?_cons_of_neg _ (by simp [pok03]), List.find?_cons_of_neg _ (by simp [pok04]),
    List.find?_cons_of_neg _ (by simp [pok05]), List.find?_nil]

theorem select_step1 : select_step testEndpoints 5 ([], ∅) 1
    = ([endpoint_pair testEndpoints 1 2], insert 1 (insert 2 ∅)) := by
  rw [select_step]
  dsimp only
  rw [if_neg (by simp)]
  rw [show List.range' (1 + 1) (testEndpoints.length - (1 + 1)) = [2, 3, 4, 5] from rfl]
  rw [List.find?_cons_of_pos _ pok12]
  rfl

theorem select_step2 : select_step testEndpoints 5
    ([endpoint_pair testEndpoints 1 2], insert 1 (insert 2 ∅)) 2
    = ([endpoint_pair testEndpoints 1 2], insert 1 (insert 2 ∅)) := by
  rw [select_step]
  dsimp only
  rw [if_pos (by decide)]

theorem select_step3 : select_step testEndpoints 5
    ([endpoint_pair testEndpoints 1 2], insert 1 (insert 2 ∅)) 3
    = ([endpoint_pair testEndpoints 1 2], insert 1 (insert 2 ∅)) := by
  rw [select_step]
  dsimp only
  rw [if_neg (by decide)]
  rw [show List.range' (3 + 1) (testEndpoints.length - (3 + 1)) = [4, 5] from rfl]
  rw [List.find?_cons_of_neg _ (by simp [pok34]), List.find?_cons_of_neg _ (by simp [pok35]),
    List.find?_nil]

theorem select_step4 : select_step testEndpoints 5
    ([endpoint_pair testEndpoints 1 2], insert 1 (insert 2 ∅)) 4
    = ([endpoint_pair testEndpoints 1 2], insert 1 (insert 2 ∅)) := by
  rw [select_step]
  dsimp only
  rw [if_neg (by decide)]
  rw [show List.range' (4 + 1) (testEndpoints.length - (4 + 1)) = [5] from rfl]
  rw [List.find?_cons_of_neg _ (by simp [pok45]), List.find?_nil]

theorem select_step5 : select_step testEndpoints 5
    ([endpoint_pair testEndpoints 1 2], insert 1 (insert 2 ∅)) 5
    = ([endpoint_pair testEndpoints 1 2], insert 1 (insert 2 ∅)) := by
  rw [select_step]
  dsimp only
  rw [if_neg (by decide)]
  rw [show List.range' (5 + 1) (testEndpoints.length - (5 + 1)) = ([] : List ℕ) from rfl]
  rw [List.find?_nil]

/-- Evaluated selection on the test plan: the code pairs `e1` (end of contour
0) with `e2` (start of contour 1, distance 4) — the first in-range endpoint in
index order — even though `e4` (start of contour 2) is closer to both. -/
theorem code_select_eval :
    (select_merge_pairs testEndpoints 5).1
      = [((0, false), (1, true), pdist 100 0 104 0)] := by
  unfold select_merge_pairs
  rw [show List.range testEndpoints.length = [0, 1, 2, 3, 4, 5] from rfl]
  rw [List.foldl_cons, select_step0, List.foldl_cons, select_step1,
    List.foldl_cons, select_step2, List.foldl_cons, select_step3,
    List.foldl_cons, select_step4, List.foldl_cons, select_step5, List.foldl_nil]
  rfl

/-- Modelled from the spec: the selection rule that claim C5 ascribes to the
code — form all candidate endpoint pairs (indices `i < j`, different
contours, distance at most `merge_distance`), sort the candidates by
ascending distance (stably), and accept greedily in that order, skipping any
pair one of whose endpoints was already consumed by an earlier, closer
pairing. -/
noncomputable def spec_select_pairs (endpoints : List Endpoint) (m : ℝ) :
    List MergePair :=
  let candidates := (List.range endpoints.length).flatMap (fun i =>
    (List.range' (i + 1) (endpoints.length - (i + 1))).filterMap (fun j =>
      if (endpoints.getD j dfltEndpoint).contour_idx
            ≠ (endpoints.getD i dfltEndpoint).contour_idx ∧
          pdist (endpoints.getD i dfltEndpoint).x (endpoints.getD i dfltEndpoint).y
              (endpoints.getD j dfltEndpoint).x (endpoints.getD j dfltEndpoint).y ≤ m
        then some (i, j) else none))
  let sorted := candidates.insertionSort (fun a b =>
    pdist (endpoints.getD a.1 dfltEndpoint).x (endpoints.getD a.1 dfltEndpoint).y
        (endpoints.getD a.2 dfltEndpoint).x (endpoints.getD a.2 dfltEndpoint).y ≤
      pdist (endpoints.getD b.1 dfltEndpoint).x (endpoints.getD b.1 dfltEndpoint).y
        (endpoints.getD b.2 dfltEndpoint).x (endpoints.getD b.2 dfltEndpoint).y)
  (sorted.foldl (fun st c =>
      if c.1 ∈ st.2 ∨ c.2 ∈ st.2 then st
      else (st.1 ++ [endpoint_pair endpoints c.1 c.2], insert c.1 (insert c.2 st.2)))
    ([], (∅ : Finset ℕ))).1

theorem insertionSort_three {α : Type} (r : α → α → Prop) [DecidableRel r]
    (a b c : α) (h1 : ¬ r b c) (h2 : ¬ r a c) (h3 : ¬ r a b) :
    List.insertionSort r [a, b, c] = [c, b, a] := by
  show List.orderedInsert r a (List.orderedInsert r b (List.orderedInsert r c [])) = [c, b, a]
  rw [show List.orderedInsert r c [] = [c] from rfl]
  rw [show List.orderedInsert r b [c] = if r b c then [b, c] else [c, b] from rfl]
  rw [if_neg h1]
  rw [show List.orderedInsert r a [c, b]
    = if r a c then [a, c, b] else c :: List.orderedInsert r a [b] from rfl]
  rw [if_neg h2]
  rw [show List.orderedInsert r a [b] = if r a b then [a, b] else [b, a] from rfl]
  rw [if_neg h3]

theorem cmp1424 : ¬ (pdist 100 0 103 0 ≤ pdist 104 0 103 0) := by
  rw [pdist_horiz, pdist_horiz]
  norm_num

theorem cmp1224 : ¬ (pdist 100 0 104 0 ≤ pdist 104 0 103 0) := by
  rw [pdist_horiz, pdist_horiz]
  norm_num

theorem cmp1214 : ¬ (pdist 100 0 104 0 ≤ pdist 100 0 103 0) := by
  rw [pdist_horiz, pdist_horiz]
  norm_num


theorem cand_none_same (i j : ℕ)
    (hc : (testEndpoints.getD j dfltEndpoint).contour_idx
      = (testEndpoints.getD i dfltEndpoint).contour_idx) :
    (fun jj =>
      if (testEndpoints.getD jj dfltEndpoint).contour_idx
            ≠ (testEndpoints.getD i dfltEndpoint).contour_idx ∧
          pdist (testEndpoints.getD i dfltEndpoint).x
            (testEndpoints.getD i dfltEndpoint).y
            (testEndpoints.getD jj dfltEndpoint).x
            (testEndpoints.getD jj dfltEndpoint).y ≤ 5
        then some (i, jj) else none) j = none :=
  if_neg (fun hp => hp.1 hc)

theorem cand_none_far (i j : ℕ)
    (hd : ¬ (pdist (testEndpoints.getD i dfltEndpoint).x
      (testEndpoints.getD i dfltEndpoint).y
      (testEndpoints.getD j dfltEndpoint).x
      (testEndpoints.getD j dfltEndpoint).y ≤ 5)) :
    (fun jj =>
      if (testEndpoints.getD jj dfltEndpoint).contour_idx
            ≠ (testEndpoints.getD i dfltEndpoint).contour_idx ∧
          pdist (testEndpoints.getD i dfltEndpoint).x
            (testEndpoints.getD i dfltEndpoint).y
            (testEndpoints.getD jj dfltEndpoint).x
            (testEndpoints.getD jj dfltEndpoint).y ≤ 5
        then some (i, jj) else none) j = none :=
  if_neg (fun hp => hd hp.2)

theorem cand_some (i j : ℕ)
    (hc : (testEndpoints.getD j dfltEndpoint).contour_idx
      ≠ (testEndpoints.getD i dfltEndpoint).contour_idx)
    (hd : pdist (testEndpoints.getD i dfltEndpoint).x
      (testEndpoints.getD i dfltEndpoint).y
      (testEndpoints.getD j dfltEndpoint).x
      (testEndpoints.getD j dfltEndpoint).y ≤ 5) :
    (fun jj =>
      if (testEndpoints.getD jj dfltEndpoint).contour_idx
            ≠ (testEndpoints.getD i dfltEndpoint).contour_idx ∧
          pdist (testEndpoints.getD i dfltEndpoint).x
            (testEndpoints.getD i dfltEndpoint).y
            (testEndpoints.getD jj dfltEndpoint).x
            (testEndpoints.getD jj dfltEndpoint).y ≤ 5
        then some (i, jj) else none) j = some (i, j) :=
  if_pos ⟨hc, hd⟩

/-- Evaluated spec-side selection on the test plan: sorting the three
candidate pairs by distance makes `(e2, e4)` (distance 1) win, consuming
`e2` and `e4`, so the distance-greedy selection is `[(e2, e4)]`. -/
theorem spec_select_eval :
    spec_select_pairs testEndpoints 5 = [((1, true), (2, true), pdist 104 0 103 0)] := by
  unfold spec_select_pairs
  dsimp only
  have hcand : (List.range testEndpoints.length).flatMap (fun i =>
      (List.range' (i + 1) (testEndpoints.length - (i + 1))).filterMap (fun j =>
        if (testEndpoints.getD j dfltEndpoint).contour_idx
              ≠ (testEndpoints.getD i dfltEndpoint).contour_idx ∧
            pdist (testEndpoints.getD i dfltEndpoint).x
                (testEndpoints.getD i dfltEndpoint).y
                (testEndpoints.getD j dfltEndpoint).x
                (testEndpoints.getD j dfltEndpoint).y ≤ 5
          then some (i, j) else none)) = [(1, 2), (1, 4), (2, 4)] := by
    rw [show List.range testEndpoints.length = [0, 1, 2, 3, 4, 5] from rfl]
    rw [List.flatMap_cons, List.flatMap_cons, List.flatMap_cons, List.flatMap_cons,
      List.flatMap_cons, List.flatMap_cons, List.flatMap_nil]
    rw [show List.range' (0 + 1) (testEndpoints.length - (0 + 1)) = [1, 2, 3, 4, 5] from rfl,
      show List.range' (1 + 1) (testEndpoints.length - (1 + 1)) = [2, 3, 4, 5] from rfl,
      show List.range' (2 + 1) (testEndpoints.length - (2 + 1)) = [3, 4, 5] from rfl,
      show List.range' (3 + 1) (testEndpoints.length - (3 + 1)) = [4, 5] from rfl,
      show List.range' (4 + 1) (testEndpoints.length - (4 + 1)) = [5] from rfl,
      show List.range' (5 + 1) (testEndpoints.length - (5 + 1)) = ([] : List ℕ) from rfl]
    rw [List.filterMap_cons_none (by exact cand_none_same 0 1 rfl),
      List.filterMap_cons_none (by exact cand_none_far 0 2 d02),
      List.filterMap_cons_none (by exact cand_none_far 0 3 d03),
      List.filterMap_cons_none (by exact cand_none_far 0 4 d04),
      List.filterMap_cons_none (by exact cand_none_far 0 5 d05),
      List.filterMap_nil]
    rw [List.filterMap_cons_some (by exact cand_some 1 2 (by decide) d12),
      List.filterMap_cons_none (by exact cand_none_far 1 3 d13),
      List.filterMap_cons_some (by exact cand_some 1 4 (by decide) d14),
      List.filterMap_cons_none (by exact cand_none_far 1 5 d15),
      List.filterMap_nil]
    rw [List.filterMap_cons_none (by exact cand_none_same 2 3 rfl),
      List.filterMap_cons_some (by exact cand_some 2 4 (by decide) d24),
      List.filterMap_cons_none (by exact cand_none_far 2 5 d25),
      List.filterMap_nil]
    rw [List.filterMap_cons_none (by exact cand_none_far 3 4 d34),
      List.filterMap_cons_none (by exact cand_none_far 3 5 d35),
      List.filterMap_nil]
    rw [List.filterMap_cons_none (by exact cand_none_same 4 5 rfl),
      List.filterMap_nil]
    rw [List.filterMap_nil]
    rfl
  rw [hcand]
  rw [insertionSort_three _ (1, 2) (1, 4) (2, 4) cmp1424 cmp1224 cmp1214]
  rw [List.foldl_cons]
  dsimp only
  rw [if_neg (by simp)]
  rw [List.foldl_cons]
  dsimp only
  rw [if_pos (by decide)]
  rw [List.foldl_cons]
  dsimp only
  rw [if_pos (by decide)]
  rw [List.foldl_nil]
  rfl

/-- Counterexample to C5: on `testContours` with `merge_distance = 5` the
code accepts the pair `(e1, e2)` at distance 4 (first in index order), while
the claimed sort-by-distance greedy selection accepts `(e2, e4)` at distance
1; the two accepted sets differ. -/
theorem select_merge_pairs_spec_counterexample :
    (select_merge_pairs (collect_endpoints testContours) 5).1
        = [((0, false), (1, true), pdist 100 0 104 0)] ∧
      spec_select_pairs (collect_endpoints testContours) 5
        = [((1, true), (2, true), pdist 104 0 103 0)] ∧
      (select_merge_pairs (collect_endpoints testContours) 5).1
        ≠ spec_select_pairs (collect_endpoints testContours) 5 := by
  refine ⟨?_, ?_, ?_⟩
  · rw [collect_testContours, code_select_eval]
  · rw [collect_testContours, spec_select_eval]
  · rw [collect_testContours, code_select_eval, spec_select_eval]
    intro h
    rw [List.cons.injEq] at h
    rw [Prod.mk.injEq, Prod.mk.injEq] at h
    exact absurd h.1.1.1 (by norm_num)


/-! ## `unify_close_points` (`extractor.py` lines 66–243) -/

/-- One flattened point record of `all_points` (lines 95–115): coordinates
together with the indices of the contour and of the point within it. -/
structure PointData where
  x : ℤ
  y : ℤ
  contour_idx : ℕ
  point_idx : ℕ
deriving DecidableEq

def dfltPoint : PointData := ⟨0, 0, 0, 0⟩

/-- The flattened point list `all_points` (lines 95–114), in enumeration
order: contour by contour, point by point. -/
def all_points (contours : List (List (ℤ × ℤ))) : List PointData :=
  contours.enum.flatMap (fun ci =>
    ci.2.enum.map (fun pi => ⟨pi.2.1, pi.2.2, ci.1, pi.1⟩))

/-- The spatial-grid key of a point (lines 101–103): `int(x // grid_size)`
on a Python float division floors, so the key is the pair of floors. -/
noncomputable def grid_key (g : ℝ) (p : PointData) : ℤ × ℤ :=
  (⌊(p.x : ℝ) / g⌋, ⌊(p.y : ℝ) / g⌋)

/-- The spatial index (lines 92–115): since indices are appended in
enumeration order, the bucket of a key is the increasing list of indices of
the points mapped to it. -/
noncomputable def spatial_index (g : ℝ) (pts : List PointData) (k : ℤ × ℤ) :
    List ℕ :=
  (List.range pts.length).filter
    (fun i => decide (grid_key g (pts.getD i dfltPoint) = k))

/-- The 3×3 neighbourhood offsets, in the loop order of lines 132–133. -/
def neighbor_offsets : List (ℤ × ℤ) :=
  [(-1, -1), (-1, 0), (-1, 1), (0, -1), (0, 0), (0, 1), (1, -1), (1, 0), (1, 1)]

/-- Inner candidate scan of the clustering loop (lines 136–150): state is
the cluster being grown and the `merged` flags. -/
noncomputable def scan_step (m : ℝ) (pts : List PointData) (p : ℕ)
    (st : List ℕ × List Bool) (c : ℕ) : List ℕ × List Bool :=
  if st.2.getD c false ∨ c = p then st
  else if pdist (pts.getD p dfltPoint).x (pts.getD p dfltPoint).y
      (pts.getD c dfltPoint).x (pts.getD c dfltPoint).y ≤ m then
    (st.1 ++ [c], st.2.set c true)
  else st

/-- Outer clustering loop body (lines 121–156): state is the accumulated
cluster list and the `merged` flags; singleton clusters are dropped. -/
noncomputable def cluster_step (g m : ℝ) (pts : List PointData)
    (st : List (List ℕ) × List Bool) (p : ℕ) : List (List ℕ) × List Bool :=
  if st.2.getD p false then st
  else
    let gk := grid_key g (pts.getD p dfltPoint)
    let cands := neighbor_offsets.flatMap
      (fun d => spatial_index g pts (gk.1 + d.1, gk.2 + d.2))
    let res := cands.foldl (scan_step m pts p) ([p], st.2.set p true)
    (if 1 < res.1.length then st.1 ++ [res.1] else st.1, res.2)

/-- The cluster list produced by lines 117–156. -/
noncomputable def clustersOf (g m : ℝ) (pts : List PointData) :
    List (List ℕ) :=
  ((List.range pts.length).foldl (cluster_step g m pts)
    ([], List.replicate pts.length false)).1

/-- Python `round()` on a float with no digits argument: round half to even,
returning an integer. -/
noncomputable def pyround (x : ℝ) : ℤ :=
  if Int.fract x = 1 / 2 then (if Even ⌊x⌋ then ⌊x⌋ else ⌊x⌋ + 1)
  else round x

/-- Weight of a point in the weighted centroid (lines 173–177): endpoints of
their contour weigh 2.0, interior points 1.0. -/
noncomputable def point_weight (contours : List (List (ℤ × ℤ)))
    (p : PointData) : ℝ :=
  if p.point_idx = 0 ∨ p.point_idx = (contours.getD p.contour_idx []).length - 1
  then 2 else 1

/-- Weighted-centroid of one cluster (lines 163–184), with
`int(round(...))` applied componentwise. -/
noncomputable def cluster_centroid (contours : List (List (ℤ × ℤ)))
    (pts : List PointData) (cluster : List ℕ) : ℤ × ℤ :=
  let tw := (cluster.map
    (fun i => point_weight contours (pts.getD i dfltPoint))).sum
  let wx := (cluster.map (fun i =>
    ((pts.getD i dfltPoint).x : ℝ) * point_weight contours (pts.getD i dfltPoint))).sum
  let wy := (cluster.map (fun i =>
    ((pts.getD i dfltPoint).y : ℝ) * point_weight contours (pts.getD i dfltPoint))).sum
  (pyround (wx / tw), pyround (wy / tw))

/-- The `cluster_centroids` mapping (lines 161–190) as an association list:
every point of a (non-singleton) cluster is keyed by its
`(contour_idx, point_idx)` pair; keys are distinct since clusters are
disjoint, so `List.lookup` agrees with the Python dict. -/
noncomputable def cluster_centroids (contours : List (List (ℤ × ℤ)))
    (pts : List PointData) (clusters : List (List ℕ)) :
    List ((ℕ × ℕ) × (ℤ × ℤ)) :=
  clusters.flatMap (fun cl =>
    let c := cluster_centroid contours pts cl
    cl.map (fun i =>
      (((pts.getD i dfltPoint).contour_idx, (pts.getD i dfltPoint).point_idx), c)))

/-- Rewrite loop body (lines 199–221): replace a clustered point by its
centroid, then append it only if it is at least `m * 0.5` away from the
previously kept point. -/
noncomputable def rewrite_step (m : ℝ) (cents : List ((ℕ × ℕ) × (ℤ × ℤ)))
    (ci : ℕ) (st : List (ℤ × ℤ) × Option (ℤ × ℤ)) (pi : ℕ × (ℤ × ℤ)) :
    List (ℤ × ℤ) × Option (ℤ × ℤ) :=
  let np := (cents.lookup (ci, pi.1)).getD pi.2
  match st.2 with
  | none => (st.1 ++ [np], some np)
  | some prev =>
      if m * 0.5 ≤ pdist np.1 np.2 prev.1 prev.2 then (st.1 ++ [np], some np)
      else st

/-- One contour after the rewrite loop (lines 195–221). -/
noncomputable def unify_rewrite (m : ℝ) (cents : List ((ℕ × ℕ) × (ℤ × ℤ)))
    (ci : ℕ) (contour : List (ℤ × ℤ)) : List (ℤ × ℤ) :=
  (contour.enum.foldl (rewrite_step m cents ci) ([], none)).1

/-- Polyline length of a contour (lines 226–230). -/
noncomputable def total_length (c : List (ℤ × ℤ)) : ℝ :=
  ((c.zip c.tail).map (fun pq => pdist pq.1.1 pq.1.2 pq.2.1 pq.2.2)).sum

/-- The body of `unify_close_points` once the merge distance `m` is fixed
(lines 91–243): build the spatial index with grid size `m * 2`, cluster,
compute centroids, rewrite every contour, and keep only rewritten contours
with at least 2 points and polyline length at least `m * 2`. -/
noncomputable def unify_core (contours : List (List (ℤ × ℤ))) (m : ℝ) :
    List (List (ℤ × ℤ)) :=
  let pts := all_points contours
  let cents := cluster_centroids contours pts (clustersOf (m * 2) m pts)
  contours.enum.filterMap (fun ci =>
    let u := unify_rewrite m cents ci.1 ci.2
    if 2 ≤ u.length ∧ m * 2 ≤ total_length u then some u else none)

/-- `unify_close_points` (`extractor.py` lines 66–243): empty input is
returned unchanged; otherwise the merge distance is the image diagonal
(shape is `(height, width)`) times `merge_distance_percent`. -/
noncomputable def unify_close_points (contours : List (List (ℤ × ℤ)))
    (image_shape : ℤ × ℤ) (merge_distance_percent : ℝ) :
    List (List (ℤ × ℤ)) :=
  if contours = [] then contours
  else unify_core contours
    (Real.sqrt (((image_shape.2 : ℝ)) ^ 2 + ((image_shape.1 : ℝ)) ^ 2)
      * merge_distance_percent)


/-- Each rewrite step appends at most one point. -/
theorem rewrite_step_len (m : ℝ) (cents : List ((ℕ × ℕ) × (ℤ × ℤ))) (ci : ℕ)
    (st : List (ℤ × ℤ) × Option (ℤ × ℤ)) (a : ℕ × (ℤ × ℤ)) :
    ((rewrite_step m cents ci st a).1).length ≤ st.1.length + 1 := by
  obtain ⟨acc, prev⟩ := st
  rw [rewrite_step]
  cases prev with
  | none => simp
  | some p =>
      dsimp only
      split
      · simp
      · exact Nat.le_succ _

/-- The rewrite loop grows its accumulator by at most one point per input
point. -/
theorem foldl_rewrite_step_len (m : ℝ) (cents : List ((ℕ × ℕ) × (ℤ × ℤ)))
    (ci : ℕ) (l : List (ℕ × (ℤ × ℤ))) :
    ∀ st, ((l.foldl (rewrite_step m cents ci) st).1).length
      ≤ st.1.length + l.length := by
  induction l with
  | nil => intro st; simp
  | cons a l ih =>
      intro st
      rw [List.foldl_cons]
      have h1 := ih (rewrite_step m cents ci st a)
      have h2 := rewrite_step_len m cents ci st a
      simp only [List.length_cons]
      omega

/-- A rewritten contour has no more points than the original. -/
theorem unify_rewrite_len (m : ℝ) (cents : List ((ℕ × ℕ) × (ℤ × ℤ)))
    (ci : ℕ) (contour : List (ℤ × ℤ)) :
    (unify_rewrite m cents ci contour).length ≤ contour.length := by
  have h := foldl_rewrite_step_len m cents ci contour.enum ([], none)
  rw [unify_rewrite]
  simpa [List.enum_length] using h

/-- Summing a bound through `filterMap`. -/
theorem sum_filterMap_le {α β : Type} (f : α → Option β) (g : β → ℕ)
    (h : α → ℕ) (hf : ∀ a b, f a = some b → g b ≤ h a) :
    ∀ l : List α, ((l.filterMap f).map g).sum ≤ (l.map h).sum := by
  intro l
  induction l with
  | nil => simp
  | cons a l ih =>
      rw [List.filterMap_cons]
      cases hfa : f a with
      | none =>
          simp only [List.map_cons, List.sum_cons]
          exact ih.trans (Nat.le_add_left _ _)
      | some b =>
          simp only [List.map_cons, List.sum_cons]
          exact Nat.add_le_add (hf a b hfa) ih

/-- `unify_core` never increases the contour count nor the total vertex
count. -/
theorem unify_core_shrinks (contours : List (List (ℤ × ℤ))) (m : ℝ) :
    (unify_core contours m).length ≤ contours.length ∧
      ((unify_core contours m).map List.length).sum
        ≤ (contours.map List.length).sum := by
  have henum : contours.enum.map (fun p : ℕ × List (ℤ × ℤ) => p.2.length)
      = contours.map List.length := by
    rw [show (fun p : ℕ × List (ℤ × ℤ) => p.2.length)
        = List.length ∘ Prod.snd from rfl]
    rw [← List.map_map, List.enum_map_snd]
  constructor
  · rw [unify_core]
    calc (List.filterMap _ contours.enum).length
        ≤ contours.enum.length := List.length_filterMap_le _ _
      _ = contours.length := List.enum_length
  · rw [unify_core]
    dsimp only
    refine le_trans (sum_filterMap_le _ List.length
      (fun p : ℕ × List (ℤ × ℤ) => p.2.length) ?_ contours.enum) (le_of_eq ?_)
    · intro a b hab
      split at hab
      · cases hab
        exact unify_rewrite_len _ _ _ _
      · cases hab
    · rw [henum]

/-- C4 (amended): one application of `unify_close_points` never increases
the number of contours nor the total number of vertices; the original
idempotence claim is refuted separately. -/
theorem unify_close_points_monotone (contours : List (List (ℤ × ℤ)))
    (image_shape : ℤ × ℤ) (pct : ℝ) :
    (unify_close_points contours image_shape pct).length ≤ contours.length ∧
      ((unify_close_points contours image_shape pct).map List.length).sum
        ≤ (contours.map List.length).sum := by
  rw [unify_close_points]
  split
  · exact ⟨le_refl _, le_refl _⟩
  · exact unify_core_shrinks contours _

/-! ### Concrete two-pass evaluation of `unify_close_points` -/

def uX : List (List (ℤ × ℤ)) := [[(0, 0), (3, 0), (6, 0), (40, 0)]]

def uY : List (List (ℤ × ℤ)) := [[(1, 0), (6, 0), (40, 0)]]

def uPts1 : List PointData := [⟨0, 0, 0, 0⟩, ⟨3, 0, 0, 1⟩, ⟨6, 0, 0, 2⟩, ⟨40, 0, 0, 3⟩]

def uPts2 : List PointData := [⟨1, 0, 0, 0⟩, ⟨6, 0, 0, 1⟩, ⟨40, 0, 0, 2⟩]

theorem all_points_uX : all_points uX = uPts1 := rfl

theorem all_points_uY : all_points uY = uPts2 := rfl

/-- With `pts`'s grid keys listed explicitly, the spatial index becomes a
computable filter. -/
theorem spatial_index_keys (g : ℝ) (pts : List PointData) (ks : List (ℤ × ℤ))
    (hk : pts.map (grid_key g) = ks) (k : ℤ × ℤ) :
    spatial_index g pts k
      = (List.range pts.length).filter (fun i => decide (ks.getD i (0, 0) = k)) := by
  subst hk
  rw [spatial_index]
  refine List.filter_congr ?_
  intro i hi
  rw [List.mem_range] at hi
  have h1 : (pts.map (grid_key g)).getD i (0, 0)
      = grid_key g (pts.getD i dfltPoint) := by
    rw [List.getD_eq_getElem _ _ (by simpa using hi), List.getD_eq_getElem _ _ hi,
      List.getElem_map]
  rw [h1]

theorem grid_keys_uPts1 :
    uPts1.map (grid_key 10) = [(0, 0), (0, 0), (0, 0), (4, 0)] := by
  simp only [uPts1, List.map_cons, List.map_nil]
  rw [grid_key, grid_key, grid_key, grid_key]
  norm_num

theorem grid_keys_uPts2 :
    uPts2.map (grid_key 10) = [(0, 0), (0, 0), (4, 0)] := by
  simp only [uPts2, List.map_cons, List.map_nil]
  rw [grid_key, grid_key, grid_key]
  norm_num

theorem cands1_00 :
    neighbor_offsets.flatMap
        (fun d => spatial_index 10 uPts1 ((0 : ℤ) + d.1, (0 : ℤ) + d.2))
      = [0, 1, 2] := by
  simp only [spatial_index_keys 10 uPts1 _ grid_keys_uPts1]
  decide

theorem cands1_40 :
    neighbor_offsets.flatMap
        (fun d => spatial_index 10 uPts1 ((4 : ℤ) + d.1, (0 : ℤ) + d.2))
      = [3] := by
  simp only [spatial_index_keys 10 uPts1 _ grid_keys_uPts1]
  decide

theorem h1c0 : cluster_step 10 5 uPts1 ([], [false, false, false, false]) 0
    = ([[0, 1]], [true, true, false, false]) := by
  rw [cluster_step]
  rw [if_neg (by decide)]
  dsimp only [List.set]
  rw [show grid_key 10 (uPts1.getD 0 dfltPoint) = ((0 : ℤ), (0 : ℤ)) from by
    rw [show uPts1.getD 0 dfltPoint = (⟨0, 0, 0, 0⟩ : PointData) from rfl, grid_key]
    norm_num]
  dsimp only
  rw [cands1_00]
  rw [List.foldl_cons]
  rw [show scan_step 5 uPts1 0 ([0], [true, false, false, false]) 0
      = ([0], [true, false, false, false]) from by
    rw [scan_step, if_pos (by decide)]]
  rw [List.foldl_cons]
  rw [show scan_step 5 uPts1 0 ([0], [true, false, false, false]) 1
      = ([0, 1], [true, true, false, false]) from by
    rw [scan_step]
    rw [if_neg (by decide)]
    show (if pdist 0 0 3 0 ≤ 5 then
        (([0] : List ℕ) ++ [1], ([true, false, false, false] : List Bool).set 1 true)
      else ([0], [true, false, false, false]))
      = ([0, 1], [true, true, false, false])
    rw [if_pos (by rw [pdist_horiz]; norm_num)]
    rfl]
  rw [List.foldl_cons]
  rw [show scan_step 5 uPts1 0 ([0, 1], [true, true, false, false]) 2
      = ([0, 1], [true, true, false, false]) from by
    rw [scan_step]
    rw [if_neg (by decide)]
    show (if pdist 0 0 6 0 ≤ 5 then
        (([0, 1] : List ℕ) ++ [2], ([true, true, false, false] : List Bool).set 2 true)
      else ([0, 1], [true, true, false, false]))
      = ([0, 1], [true, true, false, false])
    rw [if_neg (by rw [pdist_horiz]; norm_num)]]
  rw [List.foldl_nil]
  rfl

theorem h1c1 : cluster_step 10 5 uPts1 ([[0, 1]], [true, true, false, false]) 1
    = ([[0, 1]], [true, true, false, false]) := by
  rw [cluster_step, if_pos (by decide)]

theorem h1c2 : cluster_step 10 5 uPts1 ([[0, 1]], [true, true, false, false]) 2
    = ([[0, 1]], [true, true, true, false]) := by
  rw [cluster_step]
  rw [if_neg (by decide)]
  dsimp only [List.set]
  rw [show grid_key 10 (uPts1.getD 2 dfltPoint) = ((0 : ℤ), (0 : ℤ)) from by
    rw [show uPts1.getD 2 dfltPoint = (⟨6, 0, 0, 2⟩ : PointData) from rfl, grid_key]
    norm_num]
  dsimp only
  rw [cands1_00]
  rw [List.foldl_cons]
  rw [show scan_step 5 uPts1 2 ([2], [true, true, true, false]) 0
      = ([2], [true, true, true, false]) from by
    rw [scan_step, if_pos (by decide)]]
  rw [List.foldl_cons]
  rw [show scan_step 5 uPts1 2 ([2], [true, true, true, false]) 1
      = ([2], [true, true, true, false]) from by
    rw [scan_step, if_pos (by decide)]]
  rw [List.foldl_cons]
  rw [show scan_step 5 uPts1 2 ([2], [true, true, true, false]) 2
      = ([2], [true, true, true, false]) from by
    rw [scan_step, if_pos (by decide)]]
  rw [List.foldl_nil]
  rfl

theorem h1c3 : cluster_step 10 5 uPts1 ([[0, 1]], [true, true, true, false]) 3
    = ([[0, 1]], [true, true, true, true]) := by
  rw [cluster_step]
  rw [if_neg (by decide)]
  dsimp only [List.set]
  rw [show grid_key 10 (uPts1.getD 3 dfltPoint) = ((4 : ℤ), (0 : ℤ)) from by
    rw [show uPts1.getD 3 dfltPoint = (⟨40, 0, 0, 3⟩ : PointData) from rfl, grid_key]
    norm_num]
  dsimp only
  rw [cands1_40]
  rw [List.foldl_cons]
  rw [show scan_step 5 uPts1 3 ([3], [true, true, true, true]) 3
      = ([3], [true, true, true, true]) from by
    rw [scan_step, if_pos (by decide)]]
  rw [List.foldl_nil]
  rfl

theorem clusters_pass1 : clustersOf 10 5 uPts1 = [[0, 1]] := by
  rw [clustersOf]
  rw [show uPts1.length = 4 from rfl]
  rw [show List.range 4 = [0, 1, 2, 3] from rfl]
  rw [show List.replicate 4 false = [false, false, false, false] from rfl]
  rw [List.foldl_cons, h1c0, List.foldl_cons, h1c1, List.foldl_cons, h1c2,
    List.foldl_cons, h1c3, List.foldl_nil]

/-- Evaluate `pyround` through an arithmetic simplification of its
argument. -/
theorem pyround_val (x y : ℝ) (n : ℤ) (hxy : x = y) (h1 : Int.fract y ≠ 1 / 2)
    (h2 : round y = n) : pyround x = n := by
  rw [pyround, hxy, if_neg h1, h2]

/-- `pyround` of an integer value. -/
theorem pyround_int (x : ℝ) (n : ℤ) (h : x = n) : pyround x = n := by
  refine pyround_val x n n h ?_ ?_
  · rw [Int.fract_intCast]
    norm_num
  · rw [round_intCast]

theorem hw1_0 : point_weight uX (⟨0, 0, 0, 0⟩ : PointData) = 2 := by
  rw [point_weight, if_pos (by decide)]

theorem hw1_1 : point_weight uX (⟨3, 0, 0, 1⟩ : PointData) = 1 := by
  rw [point_weight, if_neg (by decide)]

theorem centroid_pass1 : cluster_centroid uX uPts1 [0, 1] = (1, 0) := by
  rw [cluster_centroid]
  simp only [List.map_cons, List.map_nil, List.sum_cons, List.sum_nil]
  rw [show uPts1.getD 0 dfltPoint = (⟨0, 0, 0, 0⟩ : PointData) from rfl,
    show uPts1.getD 1 dfltPoint = (⟨3, 0, 0, 1⟩ : PointData) from rfl]
  rw [hw1_0, hw1_1]
  rw [Prod.mk.injEq]
  refine ⟨?_, ?_⟩
  · refine pyround_int _ 1 ?_
    push_cast
    norm_num
  · refine pyround_int _ 0 ?_
    push_cast
    norm_num

def uCents1 : List ((ℕ × ℕ) × (ℤ × ℤ)) := [((0, 0), (1, 0)), ((0, 1), (1, 0))]

def uCents2 : List ((ℕ × ℕ) × (ℤ × ℤ)) := [((0, 0), (3, 0)), ((0, 1), (3, 0))]

theorem cents_pass1 : cluster_centroids uX uPts1 [[0, 1]] = uCents1 := by
  rw [cluster_centroids]
  simp only [List.flatMap_cons, List.flatMap_nil, List.map_cons, List.map_nil,
    List.append_nil]
  rw [centroid_pass1]
  rfl

theorem ur_pass1 :
    unify_rewrite 5 uCents1 0 [(0, 0), (3, 0), (6, 0), (40, 0)]
      = [(1, 0), (6, 0), (40, 0)] := by
  rw [unify_rewrite]
  rw [show ([(0, 0), (3, 0), (6, 0), (40, 0)] : List (ℤ × ℤ)).enum
    = [(0, ((0 : ℤ), (0 : ℤ))), (1, (3, 0)), (2, (6, 0)), (3, (40, 0))] from rfl]
  rw [List.foldl_cons]
  rw [show rewrite_step 5 uCents1 0 ([], none) (0, (0, 0))
    = ([(1, 0)], some (1, 0)) from rfl]
  rw [List.foldl_cons]
  rw [show rewrite_step 5 uCents1 0 ([(1, 0)], some (1, 0)) (1, (3, 0))
      = ([(1, 0)], some (1, 0)) from by
    rw [rewrite_step]
    show (if (5 : ℝ) * 0.5 ≤ pdist 1 0 1 0 then
        (([((1 : ℤ), (0 : ℤ))] : List (ℤ × ℤ)) ++ [(1, 0)], some ((1 : ℤ), (0 : ℤ)))
      else ([(1, 0)], some (1, 0))) = ([(1, 0)], some (1, 0))
    rw [if_neg (by rw [pdist_horiz]; norm_num)]]
  rw [List.foldl_cons]
  rw [show rewrite_step 5 uCents1 0 ([(1, 0)], some (1, 0)) (2, (6, 0))
      = ([(1, 0), (6, 0)], some (6, 0)) from by
    rw [rewrite_step]
    show (if (5 : ℝ) * 0.5 ≤ pdist 6 0 1 0 then
        (([((1 : ℤ), (0 : ℤ))] : List (ℤ × ℤ)) ++ [(6, 0)], some ((6 : ℤ), (0 : ℤ)))
      else ([(1, 0)], some (1, 0))) = ([(1, 0), (6, 0)], some (6, 0))
    rw [if_pos (by rw [pdist_horiz]; norm_num)]
    rfl]
  rw [List.foldl_cons]
  rw [show rewrite_step 5 uCents1 0 ([(1, 0), (6, 0)], some (6, 0)) (3, (40, 0))
      = ([(1, 0), (6, 0), (40, 0)], some (40, 0)) from by
    rw [rewrite_step]
    show (if (5 : ℝ) * 0.5 ≤ pdist 40 0 6 0 then
        (([((1 : ℤ), (0 : ℤ)), (6, 0)] : List (ℤ × ℤ)) ++ [(40, 0)],
          some ((40 : ℤ), (0 : ℤ)))
      else ([(1, 0), (6, 0)], some (6, 0)))
      = ([(1, 0), (6, 0), (40, 0)], some (40, 0))
    rw [if_pos (by rw [pdist_horiz]; norm_num)]
    rfl]
  rw [List.foldl_nil]

theorem unify_core_pass1 : unify_core uX 5 = uY := by
  have hf0 : (if 2 ≤ (unify_rewrite 5 uCents1 0
        [((0 : ℤ), (0 : ℤ)), (3, 0), (6, 0), (40, 0)]).length ∧
        (10 : ℝ) ≤ total_length (unify_rewrite 5 uCents1 0
          [((0 : ℤ), (0 : ℤ)), (3, 0), (6, 0), (40, 0)])
      then some (unify_rewrite 5 uCents1 0
        [((0 : ℤ), (0 : ℤ)), (3, 0), (6, 0), (40, 0)])
      else none) = some [(1, 0), (6, 0), (40, 0)] := by
    rw [ur_pass1]
    rw [if_pos ⟨by norm_num, by
      rw [show total_length [(1, 0), (6, 0), (40, 0)]
        = pdist 1 0 6 0 + (pdist 6 0 40 0 + 0) from rfl]
      rw [pdist_horiz, pdist_horiz]
      norm_num⟩]
  rw [unify_core]
  dsimp only
  rw [all_points_uX]
  rw [show ((5 : ℝ) * 2) = 10 from by norm_num]
  rw [clusters_pass1]
  rw [cents_pass1]
  rw [show uX.enum = [(0, [((0 : ℤ), (0 : ℤ)), (3, 0), (6, 0), (40, 0)])] from rfl]
  rw [List.filterMap_cons_some (by exact hf0), List.filterMap_nil]
  rfl

theorem cands2_00 :
    neighbor_offsets.flatMap
        (fun d => spatial_index 10 uPts2 ((0 : ℤ) + d.1, (0 : ℤ) + d.2))
      = [0, 1] := by
  simp only [spatial_index_keys 10 uPts2 _ grid_keys_uPts2]
  decide

theorem cands2_40 :
    neighbor_offsets.flatMap
        (fun d => spatial_index 10 uPts2 ((4 : ℤ) + d.1, (0 : ℤ) + d.2))
      = [2] := by
  simp only [spatial_index_keys 10 uPts2 _ grid_keys_uPts2]
  decide

theorem h2c0 : cluster_step 10 5 uPts2 ([], [false, false, false]) 0
    = ([[0, 1]], [true, true, false]) := by
  rw [cluster_step]
  rw [if_neg (by decide)]
  dsimp only [List.set]
  rw [show grid_key 10 (uPts2.getD 0 dfltPoint) = ((0 : ℤ), (0 : ℤ)) from by
    rw [show uPts2.getD 0 dfltPoint = (⟨1, 0, 0, 0⟩ : PointData) from rfl, grid_key]
    norm_num]
  dsimp only
  rw [cands2_00]
  rw [List.foldl_cons]
  rw [show scan_step 5 uPts2 0 ([0], [true, false, false]) 0
      = ([0], [true, false, false]) from by
    rw [scan_step, if_pos (by decide)]]
  rw [List.foldl_cons]
  rw [show scan_step 5 uPts2 0 ([0], [true, false, false]) 1
      = ([0, 1], [true, true, false]) from by
    rw [scan_step]
    rw [if_neg (by decide)]
    show (if pdist 1 0 6 0 ≤ 5 then
        (([0] : List ℕ) ++ [1], ([true, false, false] : List Bool).set 1 true)
      else ([0], [true, false, false])) = ([0, 1], [true, true, false])
    rw [if_pos (by rw [pdist_horiz]; norm_num)]
    rfl]
  rw [List.foldl_nil]
  rfl

theorem h2c1 : cluster_step 10 5 uPts2 ([[0, 1]], [true, true, false]) 1
    = ([[0, 1]], [true, true, false]) := by
  rw [cluster_step, if_pos (by decide)]

theorem h2c2 : cluster_step 10 5 uPts2 ([[0, 1]], [true, true, false]) 2
    = ([[0, 1]], [true, true, true]) := by
  rw [cluster_step]
  rw [if_neg (by decide)]
  dsimp only [List.set]
  rw [show grid_key 10 (uPts2.getD 2 dfltPoint) = ((4 : ℤ), (0 : ℤ)) from by
    rw [show uPts2.getD 2 dfltPoint = (⟨40, 0, 0, 2⟩ : PointData) from rfl, grid_key]
    norm_num]
  dsimp only
  rw [cands2_40]
  rw [List.foldl_cons]
  rw [show scan_step 5 uPts2 2 ([2], [true, true, true]) 2
      = ([2], [true, true, true]) from by
    rw [scan_step, if_pos (by decide)]]
  rw [List.foldl_nil]
  rfl

theorem clusters_pass2 : clustersOf 10 5 uPts2 = [[0, 1]] := by
  rw [clustersOf]
  rw [show uPts2.length = 3 from rfl]
  rw [show List.range 3 = [0, 1, 2] from rfl]
  rw [show List.replicate 3 false = [false, false, false] from rfl]
  rw [List.foldl_cons, h2c0, List.foldl_cons, h2c1, List.foldl_cons, h2c2,
    List.foldl_nil]

theorem hw2_0 : point_weight uY (⟨1, 0, 0, 0⟩ : PointData) = 2 := by
  rw [point_weight, if_pos (by decide)]

theorem hw2_1 : point_weight uY (⟨6, 0, 0, 1⟩ : PointData) = 1 := by
  rw [point_weight, if_neg (by decide)]

theorem centroid_pass2 : cluster_centroid uY uPts2 [0, 1] = (3, 0) := by
  rw [cluster_centroid]
  simp only [List.map_cons, List.map_nil, List.sum_cons, List.sum_nil]
  rw [show uPts2.getD 0 dfltPoint = (⟨1, 0, 0, 0⟩ : PointData) from rfl,
    show uPts2.getD 1 dfltPoint = (⟨6, 0, 0, 1⟩ : PointData) from rfl]
  rw [hw2_0, hw2_1]
  rw [Prod.mk.injEq]
  refine ⟨?_, ?_⟩
  · refine pyround_val _ (8 / 3) 3 ?_ ?_ ?_
    · push_cast
      norm_num
    · rw [Int.fract]
      rw [show ⌊(8 : ℝ) / 3⌋ = 2 from by norm_num]
      norm_num
    · rw [round_eq]
      norm_num
  · refine pyround_int _ 0 ?_
    push_cast
    norm_num

theorem cents_pass2 : cluster_centroids uY uPts2 [[0, 1]] = uCents2 := by
  rw [cluster_centroids]
  simp only [List.flatMap_cons, List.flatMap_nil, List.map_cons, List.map_nil,
    List.append_nil]
  rw [centroid_pass2]
  rfl

theorem ur_pass2 :
    unify_rewrite 5 uCents2 0 [(1, 0), (6, 0), (40, 0)] = [(3, 0), (40, 0)] := by
  rw [unify_rewrite]
  rw [show ([(1, 0), (6, 0), (40, 0)] : List (ℤ × ℤ)).enum
    = [(0, ((1 : ℤ), (0 : ℤ))), (1, (6, 0)), (2, (40, 0))] from rfl]
  rw [List.foldl_cons]
  rw [show rewrite_step 5 uCents2 0 ([], none) (0, (1, 0))
    = ([(3, 0)], some (3, 0)) from rfl]
  rw [List.foldl_cons]
  rw [show rewrite_step 5 uCents2 0 ([(3, 0)], some (3, 0)) (1, (6, 0))
      = ([(3, 0)], some (3, 0)) from by
    rw [rewrite_step]
    show (if (5 : ℝ) * 0.5 ≤ pdist 3 0 3 0 then
        (([((3 : ℤ), (0 : ℤ))] : List (ℤ × ℤ)) ++ [(3, 0)], some ((3 : ℤ), (0 : ℤ)))
      else ([(3, 0)], some (3, 0))) = ([(3, 0)], some (3, 0))
    rw [if_neg (by rw [pdist_horiz]; norm_num)]]
  rw [List.foldl_cons]
  rw [show rewrite_step 5 uCents2 0 ([(3, 0)], some (3, 0)) (2, (40, 0))
      = ([(3, 0), (40, 0)], some (40, 0)) from by
    rw [rewrite_step]
    show (if (5 : ℝ) * 0.5 ≤ pdist 40 0 3 0 then
        (([((3 : ℤ), (0 : ℤ))] : List (ℤ × ℤ)) ++ [(40, 0)], some ((40 : ℤ), (0 : ℤ)))
      else ([(3, 0)], some (3, 0))) = ([(3, 0), (40, 0)], some (40, 0))
    rw [if_pos (by rw [pdist_horiz]; norm_num)]
    rfl]
  rw [List.foldl_nil]

theorem unify_core_pass2 : unify_core uY 5 = [[(3, 0), (40, 0)]] := by
  have hf0 : (if 2 ≤ (unify_rewrite 5 uCents2 0
        [((1 : ℤ), (0 : ℤ)), (6, 0), (40, 0)]).length ∧
        (10 : ℝ) ≤ total_length (unify_rewrite 5 uCents2 0
          [((1 : ℤ), (0 : ℤ)), (6, 0), (40, 0)])
      then some (unify_rewrite 5 uCents2 0 [((1 : ℤ), (0 : ℤ)), (6, 0), (40, 0)])
      else none) = some [(3, 0), (40, 0)] := by
    rw [ur_pass2]
    rw [if_pos ⟨by norm_num, by
      rw [show total_length [(3, 0), (40, 0)] = pdist 3 0 40 0 + 0 from rfl]
      rw [pdist_horiz]
      norm_num⟩]
  rw [unify_core]
  dsimp only
  rw [all_points_uY]
  rw [show ((5 : ℝ) * 2) = 10 from by norm_num]
  rw [clusters_pass2]
  rw [cents_pass2]
  rw [show uY.enum = [(0, [((1 : ℤ), (0 : ℤ)), (6, 0), (40, 0)])] from rfl]
  rw [List.filterMap_cons_some (by exact hf0), List.filterMap_nil]

theorem unify_shape_m :
    Real.sqrt ((((300 : ℤ)) : ℝ) ^ 2 + (((400 : ℤ)) : ℝ) ^ 2) * (1 / 100) = 5 := by
  rw [show (((300 : ℤ)) : ℝ) = (300 : ℝ) from by norm_num,
    show (((400 : ℤ)) : ℝ) = (400 : ℝ) from by norm_num]
  rw [show (300 : ℝ) ^ 2 + (400 : ℝ) ^ 2 = 500 ^ 2 from by norm_num]
  rw [Real.sqrt_sq (by norm_num : (0 : ℝ) ≤ 500)]
  norm_num

/-- Counterexample to C4: on a single contour of four collinear points with
image shape `(height, width) = (400, 300)` and `merge_distance_percent =
1/100` (merge distance 5), the first application returns
`[[(1,0),(6,0),(40,0)]]` but a second application merges `(1,0)` and
`(6,0)` (their distance is exactly 5) into `(3,0)`, so unification is not
idempotent. -/
theorem unify_close_points_not_idempotent :
    unify_close_points uX ((400 : ℤ), (300 : ℤ)) (1 / 100) = uY ∧
      unify_close_points
          (unify_close_points uX ((400 : ℤ), (300 : ℤ)) (1 / 100))
          ((400 : ℤ), (300 : ℤ)) (1 / 100)
        ≠ unify_close_points uX ((400 : ℤ), (300 : ℤ)) (1 / 100) := by
  have h1 : unify_close_points uX ((400 : ℤ), (300 : ℤ)) (1 / 100) = uY := by
    rw [unify_close_points]
    rw [if_neg (by decide)]
    dsimp only
    rw [unify_shape_m]
    exact unify_core_pass1
  have h2 : unify_close_points uY ((400 : ℤ), (300 : ℤ)) (1 / 100)
      = [[(3, 0), (40, 0)]] := by
    rw [unify_close_points]
    rw [if_neg (by decide)]
    dsimp only
    rw [unify_shape_m]
    exact unify_core_pass2
  refine ⟨h1, ?_⟩
  rw [h1, h2]
  decide

end Planos
